import Mathlib

/-!
Game of Life (OpenMP variant): the grid update engine of `main_openmp.cpp`

A shallow embedding of `class GameOfLife` and of the numeric branch of the
command loop in `main`.

Modelling conventions
* A C++ `int` is an `Int`.  Where a result can leave the 32 bit range on a
  state the program reaches, the result is reduced by `wrapInt32` (two's
  complement): the increment of the counter `timeStep` and the product
  `width * height` that sizes the arrays and bounds the loop of
  `initializeRandom`.  The neighbour count and the index arithmetic inside
  the loops of `step` are exact: on a grid whose cells are 0 or 1 and whose
  buffers hold `width * height` cells the count lies between 0 and 8
  (`countNeighbors_bounds`) and every index is below the buffer length.
* An `int*` buffer is a `List Int`; `buf[i]` is `readCell buf i`, the statement
  `buf[i] = v` is `writeCell buf i v`.  An access outside the buffer is
  undefined in C++; the model reads 0 and writes nothing there, and the
  theorems on indices show that no such access happens on a well formed grid.
* A counted `for (int i = 0; i < n; i++)` loop is a left fold over
  `intRange n`, the list `0, 1, ..., n-1` (empty when `n <= 0`).
* `#pragma omp parallel for collapse(2)` is modelled by its sequential
  semantics; `evalCells` runs the same loop body along an arbitrary order.
* Wall clock timing (the `double` returned by `step`) and console output are
  not modelled.
* A `float` is the rational value it holds.  `roundFloat` is the rounding of
  an exact value to IEEE 754 binary32 (round to nearest, ties to even),
  applied wherever line 34 converts or divides; the comparison of two `float`
  values is exact.  Expressions are taken to be evaluated in `float`
  precision.
* `rand()` is a stream of naturals handed in as a parameter and `RAND_MAX` is
  a parameter.
* `GameOfLife` holds the contents the two pointers give access to.  The
  pointers themselves are kept in `GameMemory`, where reads and writes go
  through them; `generationMem_view` shows that the two levels agree as long
  as the pointers name different arrays.
* `new int[n]` throws for a negative `n` and when the allocation function
  obtains no storage; the answer of the allocation function is a parameter of
  `constructChecked`.  `construct` is the constructor once both allocations
  succeeded.
-/

namespace GameOfLifeOmp

/-! ## Data model -/

/-- The fields of `class GameOfLife` (source lines 13-16). -/
structure GameOfLife where
  width : Int
  height : Int
  currentGrid : List Int
  nextGrid : List Int
  timeStep : Int
  deriving DecidableEq, Repr

/-- The values `0, 1, ..., n-1` taken by the counter of
`for (int i = 0; i < n; i++)`. -/
def intRange (n : Int) : List Int :=
  (List.range n.toNat).map Int.ofNat

/-- The expression `buf[i]` used as a value. -/
def readCell (buf : List Int) (i : Int) : Int :=
  if 0 ≤ i then buf.getD i.toNat 0 else 0

/-- The statement `buf[i] = v`. -/
def writeCell (buf : List Int) (i : Int) (v : Int) : List Int :=
  if 0 ≤ i then buf.set i.toNat v else buf

/-! ## Machine arithmetic -/

/-- The value an `int` holds after 32 bit two's complement arithmetic produced
the exact result `v`: `v` itself when it is representable, else `v` reduced
modulo `2^32` into `[-2^31, 2^31)`. -/
def wrapInt32 (v : Int) : Int :=
  (v + 2147483648) % 4294967296 - 2147483648

/-- Rounding of a rational to the nearest integer, a tie going to the even
neighbour. -/
def roundHalfEven (q : ℚ) : Int :=
  let f := ⌊q⌋
  if q - f < 1 / 2 then f
  else if 1 / 2 < q - f then f + 1
  else if f % 2 = 0 then f else f + 1

/-- The exponent of the last place of the `float` nearest to `q`:
`floor (log2 |q|) - 23` for a normal value, `-149` in the subnormal range. -/
def ulpExponent (q : ℚ) : Int :=
  max (Int.log 2 |q| - 23) (-149)

/-- The conversion of the exact value `q` to `float` (IEEE 754 binary32, round
to nearest, ties to even), given by the value of the result.  Overflow to
infinity, at `2^128`, lies outside the values met here and is not modelled. -/
def roundFloat (q : ℚ) : ℚ :=
  (roundHalfEven (q / 2 ^ ulpExponent q) : ℚ) * 2 ^ ulpExponent q

/-! ## Neighbour counting (source lines 48-67) -/

/-- The two successive `if` statements of lines 59-60 (and 61-62):
`if (n < 0) n = dim - 1; if (n >= dim) n = 0;`. -/
def wrapCoord (n dim : Int) : Int :=
  let n1 := if n < 0 then dim - 1 else n
  if n1 ≥ dim then 0 else n1

/-- The index `nidx` of line 64 for the offset `(dx, dy)` at cell `(x, y)`. -/
def neighborIndex (width height x y dx dy : Int) : Int :=
  let nx := wrapCoord (x + dx) width
  let ny := wrapCoord (y + dy) height
  ny * width + nx

/-- The values of `dy` and of `dx` in the loops of lines 51-52. -/
def offsetRange : List Int := [-1, 0, 1]

/-- The value of `neighbors` after the two loops of lines 51-67. -/
def countNeighbors (cur : List Int) (width height x y : Int) : Int :=
  offsetRange.foldl
    (fun acc dy =>
      offsetRange.foldl
        (fun acc dx =>
          if dx = 0 ∧ dy = 0 then acc
          else acc + readCell cur (neighborIndex width height x y dx dy))
        acc)
    0

/-! ## One generation (source lines 45-86) -/

/-- The body of the `x` loop (lines 47-77): count, then write 1 or 0 into
`nextGrid[idx]`. -/
def updateCell (width height : Int) (cur nxt : List Int) (y x : Int) : List Int :=
  let idx := y * width + x
  let neighbors := countNeighbors cur width height x y
  if neighbors ≥ 4 then writeCell nxt idx 1 else writeCell nxt idx 0

/-- The nested `y`/`x` loops of lines 45-79: the contents of `nextGrid` after
them. -/
def computeNext (width height : Int) (cur nxt : List Int) : List Int :=
  (intRange height).foldl
    (fun nxt y =>
      (intRange width).foldl (fun nxt x => updateCell width height cur nxt y x) nxt)
    nxt

/-- One pass of the `s` loop (lines 43-86): fill `nextGrid`, swap the two
pointers, increment the `int` counter `timeStep`. -/
def generation (g : GameOfLife) : GameOfLife :=
  let filled := computeNext g.width g.height g.currentGrid g.nextGrid
  { g with currentGrid := filled, nextGrid := g.currentGrid,
           timeStep := wrapInt32 (g.timeStep + 1) }

/-- The `s` loop with `k` passes left. -/
def stepLoop : Nat → GameOfLife → GameOfLife
  | 0, g => g
  | k + 1, g => stepLoop k (generation g)

/-- The method `GameOfLife::step(int steps)` (lines 39-93), grid effect only. -/
def step (g : GameOfLife) (steps : Int) : GameOfLife :=
  stepLoop steps.toNat g

/-! ## Initialisation (source lines 19-37) -/

/-- The expression `rand() / (float)RAND_MAX` of line 34 for the result `r`
of `rand()`: `RAND_MAX` is converted to `float`, so is `r` for the division,
and the quotient is rounded to `float`. -/
def drawnValue (randMax r : Nat) : ℚ :=
  roundFloat (roundFloat (r : ℚ) / roundFloat (randMax : ℚ))

/-- The method `initializeRandom(density)` (lines 31-37).  `rands i` is the
result of the `i`-th call of `rand()` after `srand`, `density` is the value of
the `float` argument, and the loop bound is the `int` product
`width * height`. -/
def initializeRandom (g : GameOfLife) (randMax : Nat) (rands : Nat → Nat)
    (density : ℚ) : GameOfLife :=
  let filled := (intRange (wrapInt32 (g.width * g.height))).foldl
    (fun cur i =>
      writeCell cur i (if drawnValue randMax (rands i.toNat) < density then 1 else 0))
    g.currentGrid
  { g with currentGrid := filled, timeStep := 0 }

/-- The expression `new int[n]`: `n` cells of indeterminate content, here
`junk 0, ..., junk (n-1)`. -/
def newIntArray (n : Int) (junk : Nat → Int) : List Int :=
  (List.range n.toNat).map junk

/-- The default argument `0.35f` of `initializeRandom`: the `float` nearest
to 35/100. -/
def defaultDensity : ℚ :=
  roundFloat (35 / 100)

/-- The constructor `GameOfLife(w, h)` (lines 19-24) when both allocations
return storage: the two arrays have the `int` product `width * height` as
size, and `initializeRandom` runs with the default density `0.35f`. -/
def construct (w h : Int) (junkCur junkNext : Nat → Int) (randMax : Nat)
    (rands : Nat → Nat) : GameOfLife :=
  initializeRandom
    { width := w, height := h,
      currentGrid := newIntArray (wrapInt32 (w * h)) junkCur,
      nextGrid := newIntArray (wrapInt32 (w * h)) junkNext,
      timeStep := 0 }
    randMax rands defaultDensity

/-- The exceptions a `new int[n]` expression can throw. -/
inductive AllocError where
  | badArrayNewLength
  | badAlloc
  deriving DecidableEq, Repr

/-- The expression `new int[n]` with its two failures.  A negative `n` throws
`std::bad_array_new_length` before any storage is asked for.  Otherwise the
outcome is the answer `heap` of the implementation to the request: `none`
when no storage is obtained (`std::bad_alloc`, which is also the base class of
what is thrown for a size beyond the implementation's limit), else the
indeterminate content of the new array. -/
def newIntArrayChecked (n : Int) (heap : Option (Nat → Int)) :
    Except AllocError (List Int) :=
  if n < 0 then Except.error AllocError.badArrayNewLength
  else
    match heap with
    | none => Except.error AllocError.badAlloc
    | some junk => Except.ok (newIntArray n junk)

/-- The constructor `GameOfLife(w, h)` (lines 19-24) with the two allocations
able to throw; `heapCur` and `heapNext` are the answers of the allocation
function to the two requests.  The constructor tests neither `w` nor `h`. -/
def constructChecked (w h : Int) (heapCur heapNext : Option (Nat → Int)) (randMax : Nat)
    (rands : Nat → Nat) : Except AllocError GameOfLife :=
  match newIntArrayChecked (wrapInt32 (w * h)) heapCur with
  | Except.error e => Except.error e
  | Except.ok cur =>
    match newIntArrayChecked (wrapInt32 (w * h)) heapNext with
    | Except.error e => Except.error e
    | Except.ok nxt =>
      Except.ok (initializeRandom
        { width := w, height := h, currentGrid := cur, nextGrid := nxt, timeStep := 0 }
        randMax rands defaultDensity)

/-! ## The numeric command of `main` (source lines 185-195) -/

/-- What the numeric branch of the command loop did. -/
inductive CommandOutcome where
  | advanced
  | rejected
  deriving DecidableEq, Repr

/-- Lines 187-195 of `main`: the parsed number is checked against
`steps > 0 && steps <= 10000`; only then is `game.step(steps)` called,
otherwise the message "Please enter a number between 1 and 10000." is printed
and the game is not touched. -/
def numericCommand (game : GameOfLife) (steps : Int) : GameOfLife × CommandOutcome :=
  if steps > 0 ∧ steps ≤ 10000 then (step game steps, CommandOutcome.advanced)
  else (game, CommandOutcome.rejected)

/-! ## Auxiliary definitions used to state the properties -/

/-- The cells `(y, x)` in the order of the loops of lines 45-46. -/
def cellOrder (width height : Int) : List (Int × Int) :=
  (intRange height).flatMap (fun y => (intRange width).map (fun x => (y, x)))

/-- The loop body of lines 47-77 run along an arbitrary sequence of cells. -/
def evalCells (width height : Int) (cur : List Int) (order : List (Int × Int))
    (nxt : List Int) : List Int :=
  order.foldl (fun nxt c => updateCell width height cur nxt c.1 c.2) nxt

/-- The sequence of values taken by `idx` (line 47) during one generation:
the slots of `nextGrid` that are written, in the order they are written. -/
def writtenIndices (width height : Int) : List Int :=
  (cellOrder width height).map (fun c => c.1 * width + c.2)

/-- The 8 offsets `(dx, dy)` of the Moore neighbourhood: `{-1,0,1}^2` without
`(0,0)`. -/
def mooreOffsets : List (Int × Int) :=
  [(-1, -1), (0, -1), (1, -1), (-1, 0), (1, 0), (-1, 1), (0, 1), (1, 1)]

/-- The neighbour sum as the specification words it: the sum over the 8
offsets of the cell at index `((y+dy) mod h) * w + ((x+dx) mod w)`. -/
def specNeighborSum (cur : List Int) (w h x y : Int) : Int :=
  (mooreOffsets.map
    (fun d => readCell cur (((y + d.2) % h) * w + ((x + d.1) % w)))).sum

/-- A grid as the constructor leaves it: both buffers hold `width * height`
cells. -/
def WellFormed (g : GameOfLife) : Prop :=
  (g.currentGrid.length : Int) = g.width * g.height ∧
  (g.nextGrid.length : Int) = g.width * g.height

instance (g : GameOfLife) : Decidable (WellFormed g) := by
  unfold WellFormed; infer_instance

/-- A 3x3 grid whose centre cell is dead and has four live neighbours. -/
def rebirthGrid : GameOfLife :=
  { width := 3, height := 3,
    currentGrid := [1, 1, 1, 1, 0, 0, 0, 0, 0],
    nextGrid := [0, 0, 0, 0, 0, 0, 0, 0, 0],
    timeStep := 0 }

/-- The 1x1 grid holding the given cell. -/
def singleCell (v : Int) : GameOfLife :=
  { width := 1, height := 1, currentGrid := [v], nextGrid := [0], timeStep := 0 }

/-- The value the loop body stores for cell `(x, y)` (lines 73-77). -/
def nextValue (cur : List Int) (width height y x : Int) : Int :=
  if countNeighbors cur width height x y ≥ 4 then 1 else 0

/-- The value stored in slot `i`, with the cell recovered from the slot. -/
def nextValueAt (cur : List Int) (width height i : Int) : Int :=
  nextValue cur width height (i / width) (i % width)

/-- The grid `rebirthGrid` with the centre cell set alive. -/
def rebirthGridAlive : GameOfLife :=
  { rebirthGrid with currentGrid := writeCell rebirthGrid.currentGrid (1 * 3 + 1) 1 }

/-- The all-dead grid of the given dimensions; the next buffer holds the
given leftover cells. -/
def allDead (w h : Int) (leftover : Nat → Int) : GameOfLife :=
  { width := w, height := h,
    currentGrid := List.replicate (w * h).toNat 0,
    nextGrid := newIntArray (w * h) leftover,
    timeStep := 0 }

/-- Every cell of the buffer is 0 or 1. -/
def Binary (buf : List Int) : Prop :=
  ∀ v ∈ buf, v = 0 ∨ v = 1

/-- The grid `rebirthGrid` with other leftover cells in the next buffer. -/
def rebirthGridJunk : GameOfLife :=
  { rebirthGrid with nextGrid := [5, -3, 9, 1, 1, 7, 0, 2, 4] }

/-- A 3x3 grid whose current buffer holds values other than 0 and 1. -/
def wildGrid : GameOfLife :=
  { width := 3, height := 3,
    currentGrid := [7, -2, 3, 0, 5, 1, -9, 4, 2],
    nextGrid := [6, 6, 6, 6, 6, 6, 6, 6, 6],
    timeStep := 0 }

/-- The all-alive grid of the given dimensions; the next buffer holds the
given leftover cells. -/
def allAlive (w h : Int) (leftover : Nat → Int) : GameOfLife :=
  { width := w, height := h,
    currentGrid := List.replicate (w * h).toNat 1,
    nextGrid := newIntArray (w * h) leftover,
    timeStep := 0 }

/-- The toroidal translation of a buffer by the shift `(a, b)`: the cell
`(x, y)` of the result is the cell `((x+a) mod w, (y+b) mod h)` of `buf`. -/
def translate (w h a b : Int) (buf : List Int) : List Int :=
  (cellOrder w h).map (fun c => readCell buf (((c.1 + b) % h) * w + ((c.2 + a) % w)))

/-- The grid the constructor builds from the dimensions -3 and -2 when the
first array comes back full of zeros and the second full of fives. -/
def negativeGrid : GameOfLife :=
  construct (-3) (-2) (fun _ => 0) (fun _ => 5) 32767 (fun i => i)

/-- The grid `rebirthGrid` with the counter at `INT_MAX`. -/
def counterAtMax : GameOfLife :=
  { rebirthGrid with timeStep := 2147483647 }

/-- The grid `rebirthGrid` translated by the shift `(1, 2)`, with leftover
cells in the next buffer. -/
def rebirthGridShifted : GameOfLife :=
  { width := 3, height := 3,
    currentGrid := translate 3 3 1 2 rebirthGrid.currentGrid,
    nextGrid := [4, 4, 4, 4, 4, 4, 4, 4, 4],
    timeStep := 0 }

/-! ## The pointer level: two arrays and the two pointer fields -/

/-- The two arrays obtained from `new int[...]` in the constructor. -/
inductive BufferId where
  | first
  | second
  deriving DecidableEq, Repr

/-- The object with its pointers kept as pointers: `currentGrid` and
`nextGrid` (lines 14-15) each name one of the two arrays, `first` and `second`
hold the contents of the arrays. -/
structure GameMemory where
  width : Int
  height : Int
  first : List Int
  second : List Int
  currentGrid : BufferId
  nextGrid : BufferId
  timeStep : Int
  deriving DecidableEq, Repr

/-- The contents of the array a pointer names. -/
def GameMemory.load (m : GameMemory) : BufferId → List Int
  | BufferId.first => m.first
  | BufferId.second => m.second

/-- The statement `p[i] = v` for a pointer `p`. -/
def GameMemory.store (m : GameMemory) (p : BufferId) (i v : Int) : GameMemory :=
  match p with
  | BufferId.first => { m with first := writeCell m.first i v }
  | BufferId.second => { m with second := writeCell m.second i v }

/-- The body of the `x` loop (lines 47-77) on the memory: the reads go through
the pointer `currentGrid`, the write goes through the pointer `nextGrid`. -/
def updateCellMem (m : GameMemory) (y x : Int) : GameMemory :=
  let idx := y * m.width + x
  let neighbors := countNeighbors (m.load m.currentGrid) m.width m.height x y
  if neighbors ≥ 4 then m.store m.nextGrid idx 1 else m.store m.nextGrid idx 0

/-- The loop body run on the memory along a sequence of cells. -/
def evalCellsMem (m : GameMemory) (order : List (Int × Int)) : GameMemory :=
  order.foldl (fun s c => updateCellMem s c.1 c.2) m

/-- The nested `y`/`x` loops of lines 45-79 on the memory. -/
def computeNextMem (m : GameMemory) : GameMemory :=
  (intRange m.height).foldl
    (fun s y => (intRange m.width).foldl (fun s x => updateCellMem s y x) s)
    m

/-- One pass of the `s` loop (lines 43-86) on the memory: the loops, the
exchange of the two pointers through `temp` (lines 82-84), `timeStep++`. -/
def generationMem (m : GameMemory) : GameMemory :=
  let m1 := computeNextMem m
  let temp := m1.currentGrid
  { m1 with currentGrid := m1.nextGrid, nextGrid := temp,
            timeStep := wrapInt32 (m1.timeStep + 1) }

/-- The `s` loop on the memory with `k` passes left. -/
def stepLoopMem : Nat → GameMemory → GameMemory
  | 0, m => m
  | k + 1, m => stepLoopMem k (generationMem m)

/-- The method `GameOfLife::step(int steps)` on the memory. -/
def stepMem (m : GameMemory) (steps : Int) : GameMemory :=
  stepLoopMem steps.toNat m

/-- The grid a memory state stands for: each pointer replaced by the contents
of the array it names. -/
def GameMemory.view (m : GameMemory) : GameOfLife :=
  { width := m.width, height := m.height,
    currentGrid := m.load m.currentGrid,
    nextGrid := m.load m.nextGrid,
    timeStep := m.timeStep }

/-- The memory of `rebirthGrid`: the current pointer names the first array. -/
def rebirthMemory : GameMemory :=
  { width := 3, height := 3,
    first := [1, 1, 1, 1, 0, 0, 0, 0, 0],
    second := [0, 0, 0, 0, 0, 0, 0, 0, 0],
    currentGrid := BufferId.first,
    nextGrid := BufferId.second,
    timeStep := 0 }

/-! ## Basic facts on ranges, reads and writes -/

theorem mem_intRange (n i : Int) : i ∈ intRange n ↔ 0 ≤ i ∧ i < n := by
  unfold intRange
  simp only [List.mem_map, List.mem_range]
  constructor
  · rintro ⟨k, hk, rfl⟩
    have : ((k : Nat) : Int) = Int.ofNat k := rfl
    omega
  · rintro ⟨h0, h1⟩
    refine ⟨i.toNat, by omega, ?_⟩
    show ((i.toNat : Nat) : Int) = i
    omega

theorem mem_cellOrder (w h : Int) (c : Int × Int) :
    c ∈ cellOrder w h ↔ (0 ≤ c.1 ∧ c.1 < h) ∧ (0 ≤ c.2 ∧ c.2 < w) := by
  unfold cellOrder
  simp only [List.mem_flatMap, List.mem_map, mem_intRange]
  constructor
  · rintro ⟨y, hy, x, hx, rfl⟩
    exact ⟨hy, hx⟩
  · rintro ⟨hy, hx⟩
    exact ⟨c.1, hy, c.2, hx, rfl⟩

theorem writeCell_length (b : List Int) (i v : Int) :
    (writeCell b i v).length = b.length := by
  unfold writeCell
  split <;> simp

theorem writeCell_getElem? (b : List Int) (i v : Int) (j : Nat) :
    (writeCell b i v)[j]? = if i = (j : Int) then (b[j]?).map (fun _ => v) else b[j]? := by
  unfold writeCell
  by_cases hi : 0 ≤ i
  · rw [if_pos hi, List.getElem?_set]
    by_cases hij : i = (j : Int)
    · have h1 : i.toNat = j := by omega
      rw [if_pos h1, if_pos hij]
      subst h1
      by_cases hl : i.toNat < b.length
      · simp [hl]
      · rw [if_neg hl, List.getElem?_eq_none (by omega)]
        rfl
    · have h1 : ¬ i.toNat = j := by omega
      rw [if_neg h1, if_neg hij]
  · have hij : ¬ i = (j : Int) := by omega
    rw [if_neg hi, if_neg hij]

theorem readCell_eq_getElem? (b : List Int) (j : Nat) :
    readCell b (j : Int) = (b[j]?).getD 0 := by
  unfold readCell
  simp [List.getD_eq_getElem?_getD]

/-! ## The loop over the cells, slot by slot -/

theorem updateCell_eq (w h : Int) (cur nxt : List Int) (y x : Int) :
    updateCell w h cur nxt y x = writeCell nxt (y * w + x) (nextValue cur w h y x) := by
  unfold updateCell nextValue
  by_cases hc : countNeighbors cur w h x y ≥ 4
  · simp only [if_pos hc]
  · simp only [if_neg hc]

theorem evalCells_length (w h : Int) (cur : List Int) (order : List (Int × Int))
    (nxt : List Int) : (evalCells w h cur order nxt).length = nxt.length := by
  unfold evalCells
  induction order generalizing nxt with
  | nil => rfl
  | cons c cs ih =>
    rw [List.foldl_cons, ih, updateCell_eq, writeCell_length]

theorem slot_decode (w y x : Int) (hx0 : 0 ≤ x) (hxw : x < w) :
    (y * w + x) / w = y ∧ (y * w + x) % w = x := by
  have hw : w ≠ 0 := by omega
  constructor
  · rw [Int.add_comm, Int.add_mul_ediv_right _ _ hw, Int.ediv_eq_zero_of_lt hx0 hxw]
    simp
  · rw [Int.add_comm, Int.add_mul_emod_self, Int.emod_eq_of_lt hx0 hxw]

theorem nextValueAt_slot (cur : List Int) (w h y x : Int) (hx0 : 0 ≤ x) (hxw : x < w) :
    nextValueAt cur w h (y * w + x) = nextValue cur w h y x := by
  unfold nextValueAt
  rw [(slot_decode w y x hx0 hxw).1, (slot_decode w y x hx0 hxw).2]

/-- Slot `j` after running the loop body along `order`: the rule's value if
some cell of `order` has slot `j`, the old content otherwise. -/
theorem evalCells_getElem? (w h : Int) (cur : List Int) (order : List (Int × Int))
    (hord : ∀ c ∈ order, 0 ≤ c.2 ∧ c.2 < w) (nxt : List Int) (j : Nat) :
    (evalCells w h cur order nxt)[j]? =
      if (j : Int) ∈ order.map (fun c => c.1 * w + c.2)
      then (nxt[j]?).map (fun _ => nextValueAt cur w h j) else nxt[j]? := by
  unfold evalCells
  induction order generalizing nxt with
  | nil => simp
  | cons c cs ih =>
    have hcs : ∀ d ∈ cs, 0 ≤ d.2 ∧ d.2 < w := fun d hd => hord d (List.mem_cons_of_mem _ hd)
    have hc := hord c (List.mem_cons_self _ _)
    rw [List.foldl_cons, ih hcs, updateCell_eq, writeCell_getElem?]
    by_cases hj : (j : Int) ∈ cs.map (fun c => c.1 * w + c.2)
    · have hj2 : (j : Int) ∈ (c :: cs).map (fun c => c.1 * w + c.2) := by
        rw [List.map_cons]; exact List.mem_cons_of_mem _ hj
      rw [if_pos hj, if_pos hj2]
      by_cases hcj : c.1 * w + c.2 = (j : Int)
      · rw [if_pos hcj]; cases nxt[j]? <;> rfl
      · rw [if_neg hcj]
    · rw [if_neg hj]
      by_cases hcj : c.1 * w + c.2 = (j : Int)
      · have hj2 : (j : Int) ∈ (c :: cs).map (fun c => c.1 * w + c.2) := by
          rw [List.map_cons, ← hcj]; exact List.mem_cons_self _ _
        rw [if_pos hcj, if_pos hj2, ← hcj, nextValueAt_slot cur w h c.1 c.2 hc.1 hc.2]
      · have hj2 : ¬ (j : Int) ∈ (c :: cs).map (fun c => c.1 * w + c.2) := by
          rw [List.map_cons, List.mem_cons]
          rintro (h1 | h1)
          · exact hcj h1.symm
          · exact hj h1
        rw [if_neg hcj, if_neg hj2]

theorem computeNext_eq_evalCells (w h : Int) (cur nxt : List Int) :
    computeNext w h cur nxt = evalCells w h cur (cellOrder w h) nxt := by
  unfold computeNext evalCells cellOrder List.flatMap
  rw [List.foldl_flatten, List.foldl_map]
  congr 1
  funext b y
  rw [List.foldl_map]

theorem cellOrder_snd (w h : Int) : ∀ c ∈ cellOrder w h, 0 ≤ c.2 ∧ c.2 < w :=
  fun c hc => ((mem_cellOrder w h c).1 hc).2

/-- After the two loops, the slot of an in-range cell holds the rule's value. -/
theorem computeNext_read (w h : Int) (cur nxt : List Int)
    (hlen : (nxt.length : Int) = w * h) (x y : Int)
    (hx0 : 0 ≤ x) (hxw : x < w) (hy0 : 0 ≤ y) (hyh : y < h) :
    readCell (computeNext w h cur nxt) (y * w + x) = nextValue cur w h y x := by
  have hidx0 : 0 ≤ y * w + x := by nlinarith
  have hidx1 : y * w + x < w * h := by nlinarith
  obtain ⟨j, hj⟩ : ∃ j : Nat, (j : Int) = y * w + x := ⟨(y * w + x).toNat, by omega⟩
  have hmem : (j : Int) ∈ (cellOrder w h).map (fun c => c.1 * w + c.2) := by
    rw [List.mem_map]
    exact ⟨(y, x), (mem_cellOrder w h (y, x)).2 ⟨⟨hy0, hyh⟩, ⟨hx0, hxw⟩⟩, hj.symm⟩
  have hjl : j < nxt.length := by omega
  rw [← hj, readCell_eq_getElem?, computeNext_eq_evalCells,
    evalCells_getElem? w h cur _ (cellOrder_snd w h), if_pos hmem,
    List.getElem?_eq_getElem hjl, hj, nextValueAt_slot cur w h y x hx0 hxw]
  rfl

/-! ## Wraparound -/

theorem wrapCoord_range (n dim : Int) (hdim : 1 ≤ dim) :
    0 ≤ wrapCoord n dim ∧ wrapCoord n dim < dim := by
  unfold wrapCoord
  by_cases h1 : n < 0
  · simp only [if_pos h1]
    split <;> omega
  · simp only [if_neg h1]
    split <;> omega

theorem wrapCoord_eq_emod (c d dim : Int) (hdim : 1 ≤ dim) (hc0 : 0 ≤ c) (hc1 : c < dim)
    (hd0 : -1 ≤ d) (hd1 : d ≤ 1) :
    wrapCoord (c + d) dim = (c + d) % dim := by
  unfold wrapCoord
  by_cases h1 : c + d < 0
  · have h2 : ¬ dim - 1 ≥ dim := by omega
    have h3 : c + d = -1 := by omega
    simp only [if_pos h1, if_neg h2]
    rw [h3, ← Int.add_emod_self, Int.emod_eq_of_lt (by omega) (by omega)]
    omega
  · simp only [if_neg h1]
    by_cases h2 : c + d ≥ dim
    · have h3 : c + d = dim := by omega
      rw [if_pos h2, h3, Int.emod_self]
    · rw [if_neg h2, Int.emod_eq_of_lt (by omega) (by omega)]

theorem neighborIndex_eq_emod (w h x y dx dy : Int) (hw : 1 ≤ w) (hh : 1 ≤ h)
    (hx0 : 0 ≤ x) (hxw : x < w) (hy0 : 0 ≤ y) (hyh : y < h)
    (hdx0 : -1 ≤ dx) (hdx1 : dx ≤ 1) (hdy0 : -1 ≤ dy) (hdy1 : dy ≤ 1) :
    neighborIndex w h x y dx dy = ((y + dy) % h) * w + ((x + dx) % w) := by
  unfold neighborIndex
  simp only [wrapCoord_eq_emod x dx w hw hx0 hxw hdx0 hdx1,
    wrapCoord_eq_emod y dy h hh hy0 hyh hdy0 hdy1]

/-- The two counting loops, unrolled. -/
theorem countNeighbors_unroll (cur : List Int) (w h x y : Int) :
    countNeighbors cur w h x y =
      readCell cur (neighborIndex w h x y (-1) (-1)) +
      readCell cur (neighborIndex w h x y 0 (-1)) +
      readCell cur (neighborIndex w h x y 1 (-1)) +
      readCell cur (neighborIndex w h x y (-1) 0) +
      readCell cur (neighborIndex w h x y 1 0) +
      readCell cur (neighborIndex w h x y (-1) 1) +
      readCell cur (neighborIndex w h x y 0 1) +
      readCell cur (neighborIndex w h x y 1 1) := by
  simp [countNeighbors, offsetRange]

theorem countNeighbors_eq_spec (cur : List Int) (w h x y : Int) (hw : 1 ≤ w) (hh : 1 ≤ h)
    (hx0 : 0 ≤ x) (hxw : x < w) (hy0 : 0 ≤ y) (hyh : y < h) :
    countNeighbors cur w h x y = specNeighborSum cur w h x y := by
  have e := fun dx dy a b c d =>
    neighborIndex_eq_emod w h x y dx dy hw hh hx0 hxw hy0 hyh a b c d
  rw [countNeighbors_unroll,
    e (-1) (-1) (by omega) (by omega) (by omega) (by omega),
    e 0 (-1) (by omega) (by omega) (by omega) (by omega),
    e 1 (-1) (by omega) (by omega) (by omega) (by omega),
    e (-1) 0 (by omega) (by omega) (by omega) (by omega),
    e 1 0 (by omega) (by omega) (by omega) (by omega),
    e (-1) 1 (by omega) (by omega) (by omega) (by omega),
    e 0 1 (by omega) (by omega) (by omega) (by omega),
    e 1 1 (by omega) (by omega) (by omega) (by omega)]
  simp only [specNeighborSum, mooreOffsets, List.map_cons, List.map_nil, List.sum_cons,
    List.sum_nil]
  ring

/-- On a buffer of zeros and ones the count stays between 0 and 8. -/
theorem countNeighbors_bounds (cur : List Int) (w h x y : Int)
    (hbin : ∀ i : Int, readCell cur i = 0 ∨ readCell cur i = 1) :
    0 ≤ countNeighbors cur w h x y ∧ countNeighbors cur w h x y ≤ 8 := by
  rw [countNeighbors_unroll]
  have h1 := hbin (neighborIndex w h x y (-1) (-1))
  have h2 := hbin (neighborIndex w h x y 0 (-1))
  have h3 := hbin (neighborIndex w h x y 1 (-1))
  have h4 := hbin (neighborIndex w h x y (-1) 0)
  have h5 := hbin (neighborIndex w h x y 1 0)
  have h6 := hbin (neighborIndex w h x y (-1) 1)
  have h7 := hbin (neighborIndex w h x y 0 1)
  have h8 := hbin (neighborIndex w h x y 1 1)
  omega

theorem step_one (g : GameOfLife) : step g 1 = generation g := rfl

/-- C1: on a grid of width `w >= 1` and height `h >= 1` whose buffers hold
`w*h` cells, after one generation of `step` the new current cell at index
`y*w+x` is 1 if the sum over the 8 Moore offsets of the old current cells at
`((y+dy) mod h)*w + ((x+dx) mod w)` is at least 4, and 0 otherwise. -/
theorem step_cell_rule (g : GameOfLife) (w h x y : Int)
    (hgw : g.width = w) (hgh : g.height = h) (hwf : WellFormed g)
    (hw : 1 ≤ w) (hh : 1 ≤ h)
    (hx0 : 0 ≤ x) (hxw : x < w) (hy0 : 0 ≤ y) (hyh : y < h) :
    readCell (step g 1).currentGrid (y * w + x) =
      if specNeighborSum g.currentGrid w h x y ≥ 4 then 1 else 0 := by
  have hl : (g.nextGrid.length : Int) = w * h := by
    rw [← hgw, ← hgh]; exact hwf.2
  rw [step_one]
  show readCell (computeNext g.width g.height g.currentGrid g.nextGrid) (y * w + x) = _
  rw [hgw, hgh, computeNext_read w h g.currentGrid g.nextGrid hl x y hx0 hxw hy0 hyh]
  unfold nextValue
  rw [countNeighbors_eq_spec g.currentGrid w h x y hw hh hx0 hxw hy0 hyh]

/-- C1 at the centre of `rebirthGrid`. -/
theorem step_cell_rule_witness :
    WellFormed rebirthGrid ∧
    readCell (step rebirthGrid 1).currentGrid (1 * 3 + 1) =
      if specNeighborSum rebirthGrid.currentGrid 3 3 1 1 ≥ 4 then 1 else 0 :=
  ⟨by decide,
   step_cell_rule rebirthGrid 3 3 1 1 rfl rfl (by decide) (by decide) (by decide)
    (by decide) (by decide) (by decide) (by decide)⟩

/-- C2: the dead centre cell of `rebirthGrid` has four live neighbours and is
alive after one generation, although comment and help text promise that dead
cells stay dead. -/
theorem dead_cell_reborn :
    readCell rebirthGrid.currentGrid (1 * 3 + 1) = 0 ∧
    countNeighbors rebirthGrid.currentGrid 3 3 1 1 = 4 ∧
    readCell (step rebirthGrid 1).currentGrid (1 * 3 + 1) = 1 := by
  decide

/-! ## The cell's own state -/

theorem readCell_writeCell_ne (b : List Int) (k v i : Int) (hik : i ≠ k) :
    readCell (writeCell b k v) i = readCell b i := by
  by_cases hi : 0 ≤ i
  · obtain ⟨j, rfl⟩ : ∃ j : Nat, i = (j : Int) := ⟨i.toNat, by omega⟩
    rw [readCell_eq_getElem?, readCell_eq_getElem?, writeCell_getElem?,
      if_neg (fun e => hik e.symm)]
  · unfold readCell
    rw [if_neg hi, if_neg hi]

theorem wrapCoord_ne_self (c d dim : Int) (hdim : 2 ≤ dim)
    (hd : d = -1 ∨ d = 1) : wrapCoord (c + d) dim ≠ c := by
  unfold wrapCoord
  by_cases h1 : c + d < 0
  · simp only [if_pos h1]
    split <;> omega
  · simp only [if_neg h1]
    split <;> omega

theorem slot_injective (w y x y2 x2 : Int) (hx0 : 0 ≤ x) (hxw : x < w)
    (hx20 : 0 ≤ x2) (hx2w : x2 < w) (he : y * w + x = y2 * w + x2) :
    y = y2 ∧ x = x2 := by
  have h1 := slot_decode w y x hx0 hxw
  have h2 := slot_decode w y2 x2 hx20 hx2w
  rw [he] at h1
  exact ⟨h1.1.symm.trans h2.1, h1.2.symm.trans h2.2⟩

/-- On a grid at least 2 wide and 2 high no neighbour slot is the cell's own
slot. -/
theorem neighborIndex_ne_self (w h x y dx dy : Int) (hw : 2 ≤ w) (hh : 2 ≤ h)
    (hx0 : 0 ≤ x) (hxw : x < w) (_hy0 : 0 ≤ y) (_hyh : y < h)
    (hd : (dx = -1 ∨ dx = 1) ∨ (dy = -1 ∨ dy = 1)) :
    neighborIndex w h x y dx dy ≠ y * w + x := by
  unfold neighborIndex
  intro he
  have hr := wrapCoord_range (x + dx) w (by omega)
  have hs := slot_injective w _ _ _ _ hr.1 hr.2 hx0 hxw he
  rcases hd with hd | hd
  · exact wrapCoord_ne_self x dx w hw hd hs.2
  · exact wrapCoord_ne_self y dy h hh hd hs.1

/-- C3, as stated, fails on the 1x1 grid: the two buffers `[1]` and `[0]`
differ only at cell (0,0), whose 8 wrapped neighbours are the cell itself, and
the next states of that cell differ. -/
theorem own_state_matters_on_single_cell :
    (singleCell 1).width = 1 ∧ (singleCell 1).height = 1 ∧
    (singleCell 0).width = 1 ∧ (singleCell 0).height = 1 ∧
    (∀ i : Int, i ≠ 0 * 1 + 0 →
      readCell (singleCell 1).currentGrid i = readCell (singleCell 0).currentGrid i) ∧
    readCell (step (singleCell 1) 1).currentGrid (0 * 1 + 0) = 1 ∧
    readCell (step (singleCell 0) 1).currentGrid (0 * 1 + 0) = 0 := by
  refine ⟨rfl, rfl, rfl, rfl, ?_, by decide, by decide⟩
  intro i hi
  have e : (singleCell 1).currentGrid = writeCell (singleCell 0).currentGrid 0 1 := by decide
  rw [e]
  exact readCell_writeCell_ne _ 0 1 i (by omega)

/-- C3 (amended): on a grid of width at least 2 and height at least 2, two
current buffers that differ only at cell `(x, y)` give the same next state at
`(x, y)`. -/
theorem step_ignores_own_state (g1 g2 : GameOfLife) (w h x y : Int)
    (h1w : g1.width = w) (h1h : g1.height = h) (h2w : g2.width = w) (h2h : g2.height = h)
    (wf1 : WellFormed g1) (wf2 : WellFormed g2) (hw : 2 ≤ w) (hh : 2 ≤ h)
    (hx0 : 0 ≤ x) (hxw : x < w) (hy0 : 0 ≤ y) (hyh : y < h)
    (hdiff : ∀ i : Int, i ≠ y * w + x →
      readCell g1.currentGrid i = readCell g2.currentGrid i) :
    readCell (step g1 1).currentGrid (y * w + x) =
      readCell (step g2 1).currentGrid (y * w + x) := by
  have hl1 : (g1.nextGrid.length : Int) = w * h := by rw [← h1w, ← h1h]; exact wf1.2
  have hl2 : (g2.nextGrid.length : Int) = w * h := by rw [← h2w, ← h2h]; exact wf2.2
  have e := fun dx dy hd =>
    hdiff _ (neighborIndex_ne_self w h x y dx dy hw hh hx0 hxw hy0 hyh hd)
  have hcount : countNeighbors g1.currentGrid w h x y = countNeighbors g2.currentGrid w h x y := by
    rw [countNeighbors_unroll, countNeighbors_unroll,
      e (-1) (-1) (by omega), e 0 (-1) (by omega), e 1 (-1) (by omega),
      e (-1) 0 (by omega), e 1 0 (by omega),
      e (-1) 1 (by omega), e 0 1 (by omega), e 1 1 (by omega)]
  rw [step_one, step_one]
  show readCell (computeNext g1.width g1.height g1.currentGrid g1.nextGrid) (y * w + x) =
    readCell (computeNext g2.width g2.height g2.currentGrid g2.nextGrid) (y * w + x)
  rw [h1w, h1h, h2w, h2h,
    computeNext_read w h g1.currentGrid g1.nextGrid hl1 x y hx0 hxw hy0 hyh,
    computeNext_read w h g2.currentGrid g2.nextGrid hl2 x y hx0 hxw hy0 hyh]
  unfold nextValue
  rw [hcount]

/-- C3 (amended) on the 3x3 grids `rebirthGrid` and `rebirthGridAlive`, which
differ only at the centre. -/
theorem step_ignores_own_state_witness :
    readCell rebirthGrid.currentGrid (1 * 3 + 1) ≠
      readCell rebirthGridAlive.currentGrid (1 * 3 + 1) ∧
    readCell (step rebirthGrid 1).currentGrid (1 * 3 + 1) =
      readCell (step rebirthGridAlive 1).currentGrid (1 * 3 + 1) :=
  ⟨by decide,
   step_ignores_own_state rebirthGrid rebirthGridAlive 3 3 1 1 rfl rfl rfl rfl
    (by decide) (by decide) (by decide) (by decide) (by decide) (by decide) (by decide)
    (by decide)
    (fun i hi => (readCell_writeCell_ne rebirthGrid.currentGrid (1 * 3 + 1) 1 i hi).symm)⟩

/-! ## The step count and the generation counter -/

theorem wrapInt32_eq (v : Int) (hlo : -2147483648 ≤ v) (hhi : v ≤ 2147483647) :
    wrapInt32 v = v := by
  unfold wrapInt32
  omega

theorem wrapInt32_range (v : Int) :
    -2147483648 ≤ wrapInt32 v ∧ wrapInt32 v ≤ 2147483647 := by
  unfold wrapInt32
  omega

/-- As long as the counter stays representable, `k` passes add `k` to it. -/
theorem stepLoop_timeStep (k : Nat) (g : GameOfLife) (hlo : -2147483648 ≤ g.timeStep)
    (hhi : g.timeStep + (k : Int) ≤ 2147483647) :
    (stepLoop k g).timeStep = g.timeStep + (k : Int) := by
  induction k generalizing g with
  | zero => simp [stepLoop]
  | succ k ih =>
    have e : (generation g).timeStep = g.timeStep + 1 :=
      wrapInt32_eq (g.timeStep + 1) (by omega) (by omega)
    rw [stepLoop, ih (generation g) (by omega) (by omega), e]
    omega

theorem step_timeStep (g : GameOfLife) (n : Int) (hn : 0 ≤ n)
    (hlo : -2147483648 ≤ g.timeStep) (hhi : g.timeStep + n ≤ 2147483647) :
    (step g n).timeStep = g.timeStep + n := by
  unfold step
  rw [stepLoop_timeStep n.toNat g hlo (by omega)]
  omega

theorem step_nonpos (g : GameOfLife) (n : Int) (hn : n ≤ 0) : step g n = g := by
  unfold step
  have h0 : n.toNat = 0 := by omega
  rw [h0]
  rfl

theorem stepLoop_add (a b : Nat) (g : GameOfLife) :
    stepLoop (a + b) g = stepLoop b (stepLoop a g) := by
  induction a generalizing g with
  | zero => simp [stepLoop]
  | succ a ih =>
    have e : a + 1 + b = (a + b) + 1 := by omega
    rw [e, stepLoop, stepLoop, ih]

theorem stepLoop_eq_iterate (k : Nat) (g : GameOfLife) :
    stepLoop k g = Nat.iterate (fun s => step s 1) k g := by
  induction k generalizing g with
  | zero => rfl
  | succ k ih =>
    rw [stepLoop, ih, Function.iterate_succ_apply]
    rfl

/-- C4, as stated, fails for `GameOfLife::step`: called with 10001 it does
not fail but runs 10001 generations, and the counter is changed. -/
theorem step_10001_runs :
    ¬ (1 ≤ (10001 : Int) ∧ (10001 : Int) ≤ 10000) ∧
    (step (singleCell 0) 10001).timeStep = 10001 ∧
    (step (singleCell 0) 10001).timeStep ≠ (singleCell 0).timeStep := by
  have h := step_timeStep (singleCell 0) 10001 (by decide) (by decide) (by decide)
  have h0 : (singleCell 0).timeStep = 0 := rfl
  rw [h0] at h
  refine ⟨by decide, by rw [h]; decide, by rw [h, h0]; decide⟩

/-- C4 (amended): for every `n` that is not a positive integer at most 10000
the numeric command of `main` rejects the input without calling `step`, so
grid contents and generation counter are unchanged; `step` itself has no
check, and called with `n <= 0` it performs zero generations and leaves the
grid and the counter unchanged. -/
theorem invalid_step_count_rejected (game : GameOfLife) (n : Int)
    (hn : ¬ (1 ≤ n ∧ n ≤ 10000)) :
    numericCommand game n = (game, CommandOutcome.rejected) ∧
    (n ≤ 0 → step game n = game) := by
  constructor
  · unfold numericCommand
    rw [if_neg (by omega)]
  · exact step_nonpos game n

/-- C4 (amended) at `n = -5` on `rebirthGrid`. -/
theorem invalid_step_count_rejected_witness :
    ¬ (1 ≤ (-5 : Int) ∧ (-5 : Int) ≤ 10000) ∧
    numericCommand rebirthGrid (-5) = (rebirthGrid, CommandOutcome.rejected) ∧
    ((-5 : Int) ≤ 0 → step rebirthGrid (-5) = rebirthGrid) :=
  ⟨by decide, invalid_step_count_rejected rebirthGrid (-5) (by decide)⟩

/-- C5, as stated, fails at the top of the `int` range: with the counter at
`INT_MAX` one generation does not give `INT_MAX + 1`, the counter overflows
(to `INT_MIN` in two's complement). -/
theorem counter_overflows :
    (1 ≤ (1 : Int) ∧ (1 : Int) ≤ 10000) ∧
    counterAtMax.timeStep = 2147483647 ∧
    (step counterAtMax 1).timeStep = -2147483648 ∧
    (step counterAtMax 1).timeStep ≠ counterAtMax.timeStep + 1 := by
  decide

/-- C5 (amended): for every grid and every `n` with `1 <= n <= 10000` such
that the counter plus `n` is still an `int` (at most 2147483647), after
`step(n)` the counter `timeStep` is its old value plus `n`; after
`initializeRandom` it is 0 whatever it was before. -/
theorem counter_law (g : GameOfLife) (n : Int) (h1 : 1 ≤ n) (_h2 : n ≤ 10000)
    (hlo : -2147483648 ≤ g.timeStep) (hhi : g.timeStep + n ≤ 2147483647)
    (randMax : Nat) (rands : Nat → Nat) (density : ℚ) :
    (step g n).timeStep = g.timeStep + n ∧
    (initializeRandom g randMax rands density).timeStep = 0 :=
  ⟨step_timeStep g n (by omega) hlo hhi, rfl⟩

/-- C5 (amended) on `rebirthGrid` advanced by 3 generations first, then
`n = 10000`. -/
theorem counter_law_witness :
    (step rebirthGrid 3).timeStep = 3 ∧
    (step (step rebirthGrid 3) 10000).timeStep = (step rebirthGrid 3).timeStep + 10000 ∧
    (initializeRandom (step rebirthGrid 3) 32767 (fun i => i) defaultDensity).timeStep = 0 :=
  ⟨by decide,
   counter_law (step rebirthGrid 3) 10000 (by decide) (by decide) (by decide) (by decide)
    32767 (fun i => i) defaultDensity⟩

/-- C6: for `m, n >= 0`, `step(m+n)` is `step(m)` followed by `step(n)`, and
for `n >= 1`, `step(n)` is `n` successive calls of `step(1)`; the whole grid
state (both buffers and the counter) agrees. -/
theorem step_compose (g : GameOfLife) (m n : Int) (hm : 0 ≤ m) (hn : 0 ≤ n) :
    step g (m + n) = step (step g m) n ∧
    (1 ≤ n → step g n = Nat.iterate (fun s => step s 1) n.toNat g) := by
  constructor
  · unfold step
    have e : (m + n).toNat = m.toNat + n.toNat := by omega
    rw [e, stepLoop_add]
  · intro _
    unfold step
    exact stepLoop_eq_iterate n.toNat g

/-- C6 on `rebirthGrid` with `m = 1`, `n = 2`. -/
theorem step_compose_witness :
    step rebirthGrid (1 + 2) = step (step rebirthGrid 1) 2 ∧
    (1 ≤ (2 : Int) → step rebirthGrid 2 = Nat.iterate (fun s => step s 1) (2 : Int).toNat rebirthGrid) :=
  step_compose rebirthGrid 1 2 (by decide) (by decide)

/-! ## Indices stay inside the buffers -/

theorem slot_range (w h y x : Int) (hx0 : 0 ≤ x) (hxw : x < w) (hy0 : 0 ≤ y) (hyh : y < h) :
    0 ≤ y * w + x ∧ y * w + x < w * h := by
  constructor <;> nlinarith

/-- C7: for `w, h >= 1`, a cell `(x, y)` of the grid and any of the 8 neighbour
offsets, the wrapped coordinates satisfy `0 <= nx < w`, `0 <= ny < h`, and the
index `ny*w+nx` read from the current buffer lies in `[0, w*h)`, inside the
buffer of a well formed grid. -/
theorem neighbor_read_in_bounds (g : GameOfLife) (w h x y dx dy : Int)
    (hgw : g.width = w) (hgh : g.height = h) (hwf : WellFormed g)
    (hw : 1 ≤ w) (hh : 1 ≤ h)
    (_hx0 : 0 ≤ x) (_hxw : x < w) (_hy0 : 0 ≤ y) (_hyh : y < h)
    (_hd : (dx, dy) ∈ mooreOffsets) :
    (0 ≤ wrapCoord (x + dx) w ∧ wrapCoord (x + dx) w < w) ∧
    (0 ≤ wrapCoord (y + dy) h ∧ wrapCoord (y + dy) h < h) ∧
    neighborIndex w h x y dx dy = wrapCoord (y + dy) h * w + wrapCoord (x + dx) w ∧
    (0 ≤ neighborIndex w h x y dx dy ∧ neighborIndex w h x y dx dy < w * h) ∧
    (neighborIndex w h x y dx dy).toNat < g.currentGrid.length := by
  have hx := wrapCoord_range (x + dx) w hw
  have hy := wrapCoord_range (y + dy) h hh
  have hi := slot_range w h _ _ hx.1 hx.2 hy.1 hy.2
  have hl : (g.currentGrid.length : Int) = w * h := by rw [← hgw, ← hgh]; exact hwf.1
  refine ⟨hx, hy, rfl, hi, ?_⟩
  have e : neighborIndex w h x y dx dy = wrapCoord (y + dy) h * w + wrapCoord (x + dx) w := rfl
  rw [e]
  omega

/-- C7 at the corner cell (0,0) of `rebirthGrid` with offset (-1,-1): the
wrapped neighbour is (2,2), index 8. -/
theorem neighbor_read_in_bounds_witness :
    neighborIndex 3 3 0 0 (-1) (-1) = 8 ∧
    ((0 ≤ wrapCoord (0 + -1) 3 ∧ wrapCoord (0 + -1) 3 < 3) ∧
    (0 ≤ wrapCoord (0 + -1) 3 ∧ wrapCoord (0 + -1) 3 < 3) ∧
    neighborIndex 3 3 0 0 (-1) (-1) = wrapCoord (0 + -1) 3 * 3 + wrapCoord (0 + -1) 3 ∧
    (0 ≤ neighborIndex 3 3 0 0 (-1) (-1) ∧ neighborIndex 3 3 0 0 (-1) (-1) < 3 * 3) ∧
    (neighborIndex 3 3 0 0 (-1) (-1)).toNat < rebirthGrid.currentGrid.length) :=
  ⟨by decide,
   neighbor_read_in_bounds rebirthGrid 3 3 0 0 (-1) (-1) rfl rfl (by decide) (by decide)
    (by decide) (by decide) (by decide) (by decide) (by decide) (by decide)⟩

/-! ## Evaluation order -/

/-- C9: for a fixed current buffer, running the loop body sequentially along
any permutation of the `(y, x)` range gives the same next buffer as the
row-by-row order of the source. -/
theorem eval_order_irrelevant (w h : Int) (cur nxt : List Int) (order : List (Int × Int))
    (hperm : order.Perm (cellOrder w h)) :
    evalCells w h cur order nxt = computeNext w h cur nxt := by
  have hord : ∀ c ∈ order, 0 ≤ c.2 ∧ c.2 < w :=
    fun c hc => cellOrder_snd w h c (hperm.mem_iff.1 hc)
  rw [computeNext_eq_evalCells]
  apply List.ext_getElem?
  intro j
  rw [evalCells_getElem? w h cur order hord, evalCells_getElem? w h cur _ (cellOrder_snd w h)]
  have hm : (j : Int) ∈ order.map (fun c => c.1 * w + c.2) ↔
      (j : Int) ∈ (cellOrder w h).map (fun c => c.1 * w + c.2) :=
    (hperm.map _).mem_iff
  by_cases hj : (j : Int) ∈ order.map (fun c => c.1 * w + c.2)
  · rw [if_pos hj, if_pos (hm.1 hj)]
  · rw [if_neg hj, if_neg (fun h2 => hj (hm.2 h2))]

/-- C9 on `rebirthGrid` with the cells visited in reverse order. -/
theorem eval_order_irrelevant_witness :
    (cellOrder 3 3).reverse ≠ cellOrder 3 3 ∧
    evalCells 3 3 rebirthGrid.currentGrid (cellOrder 3 3).reverse rebirthGrid.nextGrid =
      computeNext 3 3 rebirthGrid.currentGrid rebirthGrid.nextGrid :=
  ⟨by decide,
   eval_order_irrelevant 3 3 rebirthGrid.currentGrid rebirthGrid.nextGrid
    (cellOrder 3 3).reverse (List.reverse_perm _)⟩

/-! ## Row-major addressing -/

theorem slot_surjective (w h i : Int) (hw : 0 < w) (hi0 : 0 ≤ i) (hi1 : i < w * h) :
    (0 ≤ i % w ∧ i % w < w) ∧ (0 ≤ i / w ∧ i / w < h) ∧ (i / w) * w + i % w = i := by
  refine ⟨⟨Int.emod_nonneg i (by omega), Int.emod_lt_of_pos i hw⟩,
    ⟨Int.ediv_nonneg hi0 (by omega), ?_⟩, ?_⟩
  · apply Int.ediv_lt_of_lt_mul hw
    rw [Int.mul_comm]; exact hi1
  · rw [Int.mul_comm]; exact Int.ediv_add_emod i w

theorem rowSlots_nat (W H : Nat) :
    (List.range H).flatMap (fun y => (List.range W).map (fun x => y * W + x)) =
      List.range (H * W) := by
  induction H with
  | zero => simp
  | succ H ih =>
    rw [List.range_succ, List.flatMap_append, ih, List.flatMap_singleton, Nat.succ_mul,
      List.range_add]

theorem writtenIndices_eq (w h : Int) (hw : 0 ≤ w) (hh : 0 ≤ h) :
    writtenIndices w h = intRange (w * h) := by
  obtain ⟨W, rfl⟩ : ∃ W : Nat, w = (W : Int) := ⟨w.toNat, by omega⟩
  obtain ⟨H, rfl⟩ : ∃ H : Nat, h = (H : Int) := ⟨h.toNat, by omega⟩
  have e : ((W : Int) * (H : Int)).toNat = H * W := by
    rw [← Int.ofNat_mul, Int.toNat_ofNat, Nat.mul_comm]
  unfold writtenIndices cellOrder intRange
  rw [e, ← rowSlots_nat, Int.toNat_ofNat, Int.toNat_ofNat, List.map_flatMap, List.map_flatMap,
    List.flatMap_map]
  congr 1
  funext y
  simp only [List.map_map]
  congr 1

theorem intRange_nodup (n : Int) : (intRange n).Nodup := by
  unfold intRange
  exact List.Nodup.map (fun a b hab => Int.ofNat.inj hab) (List.nodup_range _)

theorem intRange_length (n : Int) : (intRange n).length = n.toNat := by
  unfold intRange
  simp

theorem foldl_writeCell_length (val : Int → Int) (idxs : List Int) (b : List Int) :
    (idxs.foldl (fun cur i => writeCell cur i (val i)) b).length = b.length := by
  induction idxs generalizing b with
  | nil => rfl
  | cons i is ih => rw [List.foldl_cons, ih, writeCell_length]

theorem initializeRandom_lengths (g : GameOfLife) (randMax : Nat) (rands : Nat → Nat)
    (density : ℚ) :
    (initializeRandom g randMax rands density).currentGrid.length = g.currentGrid.length ∧
    (initializeRandom g randMax rands density).nextGrid.length = g.nextGrid.length := by
  unfold initializeRandom
  exact ⟨foldl_writeCell_length _ _ _, rfl⟩

theorem construct_lengths (w h : Int) (junkCur junkNext : Nat → Int) (randMax : Nat)
    (rands : Nat → Nat) :
    (construct w h junkCur junkNext randMax rands).currentGrid.length =
      (wrapInt32 (w * h)).toNat ∧
    (construct w h junkCur junkNext randMax rands).nextGrid.length =
      (wrapInt32 (w * h)).toNat := by
  unfold construct
  have hl := initializeRandom_lengths
    { width := w, height := h, currentGrid := newIntArray (wrapInt32 (w * h)) junkCur,
      nextGrid := newIntArray (wrapInt32 (w * h)) junkNext, timeStep := 0 }
    randMax rands defaultDensity
  rw [hl.1, hl.2]
  simp [newIntArray]

/-- With a representable, non-negative product the created grid has buffers
of `w*h` cells. -/
theorem construct_wellFormed (w h : Int) (junkCur junkNext : Nat → Int) (randMax : Nat)
    (rands : Nat → Nat) (hpos : 0 ≤ w * h) (hfit : w * h ≤ 2147483647) :
    WellFormed (construct w h junkCur junkNext randMax rands) := by
  have hl := construct_lengths w h junkCur junkNext randMax rands
  have hwd : (construct w h junkCur junkNext randMax rands).width = w := rfl
  have hhd : (construct w h junkCur junkNext randMax rands).height = h := rfl
  have e := wrapInt32_eq (w * h) (by omega) hfit
  unfold WellFormed
  rw [hl.1, hl.2, hwd, hhd, e]
  omega

/-- Both allocations granted and an `int` product that is not negative: the
constructor returns the grid `construct` describes. -/
theorem constructChecked_granted (w h : Int) (junkCur junkNext : Nat → Int) (randMax : Nat)
    (rands : Nat → Nat) (hsize : 0 ≤ wrapInt32 (w * h)) :
    constructChecked w h (some junkCur) (some junkNext) randMax rands =
      Except.ok (construct w h junkCur junkNext randMax rands) := by
  unfold constructChecked newIntArrayChecked
  simp only [if_neg (not_lt.2 hsize)]
  rfl

/-- A negative `int` product makes the first allocation throw. -/
theorem constructChecked_negative (w h : Int) (heapCur heapNext : Option (Nat → Int))
    (randMax : Nat) (rands : Nat → Nat) (hsize : wrapInt32 (w * h) < 0) :
    constructChecked w h heapCur heapNext randMax rands =
      Except.error AllocError.badArrayNewLength := by
  unfold constructChecked newIntArrayChecked
  simp only [if_pos hsize]

/-- Whenever the constructor returns a grid, both allocations were granted and
the grid is the one `construct` describes. -/
theorem constructChecked_ok (w h : Int) (heapCur heapNext : Option (Nat → Int))
    (randMax : Nat) (rands : Nat → Nat) (g : GameOfLife)
    (hok : constructChecked w h heapCur heapNext randMax rands = Except.ok g) :
    0 ≤ wrapInt32 (w * h) ∧
    ∃ junkCur junkNext : Nat → Int, heapCur = some junkCur ∧ heapNext = some junkNext ∧
      g = construct w h junkCur junkNext randMax rands := by
  by_cases hsize : wrapInt32 (w * h) < 0
  · rw [constructChecked_negative w h heapCur heapNext randMax rands hsize] at hok
    cases hok
  · refine ⟨not_lt.1 hsize, ?_⟩
    cases heapCur with
    | none =>
      unfold constructChecked newIntArrayChecked at hok
      simp only [if_neg hsize] at hok
      cases hok
    | some junkCur =>
      cases heapNext with
      | none =>
        unfold constructChecked newIntArrayChecked at hok
        simp only [if_neg hsize] at hok
        cases hok
      | some junkNext =>
        rw [constructChecked_granted w h junkCur junkNext randMax rands (not_lt.1 hsize)] at hok
        cases hok
        exact ⟨junkCur, junkNext, rfl, rfl, rfl⟩

/-- C10, as stated, fails once `w*h` leaves the `int` range: the constructor
called with 65536 x 65536 computes the size `width * height` as 0 and returns
a grid whose buffers hold no cell, not `w*h` cells. -/
theorem big_grid_has_no_cells :
    ((0 : Int) < 65536 ∧ (0 : Int) < 65536) ∧
    constructChecked 65536 65536 (some (fun _ => 7)) (some (fun _ => 9)) 2147483647
        (fun i => i) =
      Except.ok (construct 65536 65536 (fun _ => 7) (fun _ => 9) 2147483647 (fun i => i)) ∧
    (construct 65536 65536 (fun _ => 7) (fun _ => 9) 2147483647 (fun i => i)).currentGrid
      = [] ∧
    (construct 65536 65536 (fun _ => 7) (fun _ => 9) 2147483647 (fun i => i)).nextGrid
      = [] ∧
    ¬ WellFormed (construct 65536 65536 (fun _ => 7) (fun _ => 9) 2147483647 (fun i => i)) := by
  have hz : wrapInt32 (65536 * 65536) = 0 := by decide
  have hl := construct_lengths 65536 65536 (fun _ => 7) (fun _ => 9) 2147483647 (fun i => i)
  rw [hz] at hl
  refine ⟨by decide, constructChecked_granted _ _ _ _ _ _ (by rw [hz]),
    List.length_eq_zero.1 hl.1, List.length_eq_zero.1 hl.2, ?_⟩
  intro hwf
  have h1 := hwf.1
  rw [hl.1] at h1
  have hwd : (construct 65536 65536 (fun _ => 7) (fun _ => 9) 2147483647
    (fun i => i)).width = 65536 := rfl
  have hhd : (construct 65536 65536 (fun _ => 7) (fun _ => 9) 2147483647
    (fun i => i)).height = 65536 := rfl
  rw [hwd, hhd] at h1
  omega

/-- C10 (amended): for `w, h > 0` whose product is an `int` (at most
2147483647) the row-major address `y*w + x` maps the coordinates
`[0,w) x [0,h)` one-to-one onto the indices `[0, w*h)`; a grid the constructor
returns has buffers of exactly `w*h` cells; and during one generation the
indices written into the next buffer are `0, 1, ..., w*h-1`, each exactly
once. -/
theorem row_major_bijection (w h : Int) (hw : 0 < w) (hh : 0 < h)
    (hfit : w * h ≤ 2147483647)
    (heapCur heapNext : Option (Nat → Int)) (randMax : Nat) (rands : Nat → Nat) :
    (∀ x y : Int, 0 ≤ x → x < w → 0 ≤ y → y < h → 0 ≤ y * w + x ∧ y * w + x < w * h) ∧
    (∀ x y x2 y2 : Int, 0 ≤ x → x < w → 0 ≤ x2 → x2 < w →
      y * w + x = y2 * w + x2 → x = x2 ∧ y = y2) ∧
    (∀ i : Int, 0 ≤ i → i < w * h →
      ∃ x y : Int, (0 ≤ x ∧ x < w) ∧ (0 ≤ y ∧ y < h) ∧ y * w + x = i) ∧
    (∀ g : GameOfLife, constructChecked w h heapCur heapNext randMax rands = Except.ok g →
      g.width = w ∧ g.height = h ∧ WellFormed g) ∧
    writtenIndices w h = intRange (w * h) ∧
    (∀ i : Int, 0 ≤ i → i < w * h → (writtenIndices w h).count i = 1) ∧
    (∀ i : Int, ¬ (0 ≤ i ∧ i < w * h) → (writtenIndices w h).count i = 0) := by
  have hwi := writtenIndices_eq w h (by omega) (by omega)
  have hpos : 0 ≤ w * h := by positivity
  refine ⟨fun x y hx0 hxw hy0 hyh => slot_range w h y x hx0 hxw hy0 hyh, ?_, ?_, ?_, hwi, ?_, ?_⟩
  · intro x y x2 y2 hx0 hxw hx20 hx2w he
    have := slot_injective w y x y2 x2 hx0 hxw hx20 hx2w he
    exact ⟨this.2, this.1⟩
  · intro i hi0 hi1
    have := slot_surjective w h i hw hi0 hi1
    exact ⟨i % w, i / w, this.1, this.2.1, this.2.2⟩
  · intro g hok
    obtain ⟨_, junkCur, junkNext, _, _, rfl⟩ :=
      constructChecked_ok w h heapCur heapNext randMax rands g hok
    exact ⟨rfl, rfl, construct_wellFormed w h junkCur junkNext randMax rands hpos hfit⟩
  · intro i hi0 hi1
    rw [hwi]
    exact List.count_eq_one_of_mem (intRange_nodup _) ((mem_intRange _ _).2 ⟨hi0, hi1⟩)
  · intro i hi
    rw [hwi]
    exact List.count_eq_zero_of_not_mem (fun hm => hi ((mem_intRange _ _).1 hm))

/-- C10 (amended) on a 3x2 grid built by the constructor. -/
theorem row_major_bijection_witness :
    writtenIndices 3 2 = [0, 1, 2, 3, 4, 5] ∧
    constructChecked 3 2 (some (fun _ => 7)) (some (fun _ => 9)) 32767 (fun i => i) =
      Except.ok (construct 3 2 (fun _ => 7) (fun _ => 9) 32767 (fun i => i)) ∧
    ((∀ x y : Int, 0 ≤ x → x < 3 → 0 ≤ y → y < 2 → 0 ≤ y * 3 + x ∧ y * 3 + x < 3 * 2) ∧
    (∀ x y x2 y2 : Int, 0 ≤ x → x < 3 → 0 ≤ x2 → x2 < 3 →
      y * 3 + x = y2 * 3 + x2 → x = x2 ∧ y = y2) ∧
    (∀ i : Int, 0 ≤ i → i < 3 * 2 →
      ∃ x y : Int, (0 ≤ x ∧ x < 3) ∧ (0 ≤ y ∧ y < 2) ∧ y * 3 + x = i) ∧
    (∀ g : GameOfLife,
      constructChecked 3 2 (some (fun _ => 7)) (some (fun _ => 9)) 32767 (fun i => i) =
        Except.ok g → g.width = 3 ∧ g.height = 2 ∧ WellFormed g) ∧
    writtenIndices 3 2 = intRange (3 * 2) ∧
    (∀ i : Int, 0 ≤ i → i < 3 * 2 → (writtenIndices 3 2).count i = 1) ∧
    (∀ i : Int, ¬ (0 ≤ i ∧ i < 3 * 2) → (writtenIndices 3 2).count i = 0)) :=
  ⟨by decide, constructChecked_granted 3 2 _ _ 32767 _ (by decide),
   row_major_bijection 3 2 (by decide) (by decide) (by decide) (some (fun _ => 7))
    (some (fun _ => 9)) 32767 (fun i => i)⟩

/-! ## The all-dead grid -/

theorem readCell_replicate_zero (n : Nat) (i : Int) :
    readCell (List.replicate n 0) i = 0 := by
  unfold readCell
  split
  · rw [List.getD_eq_getElem?_getD, List.getElem?_replicate]
    split <;> rfl
  · rfl

theorem countNeighbors_replicate_zero (n : Nat) (w h x y : Int) :
    countNeighbors (List.replicate n 0) w h x y = 0 := by
  rw [countNeighbors_unroll]
  simp only [readCell_replicate_zero]
  rfl

/-- C8: for `w, h >= 1`, one generation of `step` applied to a grid whose
current buffer is all dead (every one of the `w*h` cells 0) yields a current
buffer that is all dead. -/
theorem all_dead_fixed (g : GameOfLife) (w h : Int) (hgw : g.width = w) (hgh : g.height = h)
    (hw : 1 ≤ w) (_hh : 1 ≤ h)
    (hcur : g.currentGrid = List.replicate (w * h).toNat 0)
    (hnext : (g.nextGrid.length : Int) = w * h) :
    (step g 1).currentGrid = List.replicate (w * h).toNat 0 := by
  rw [step_one]
  show computeNext g.width g.height g.currentGrid g.nextGrid = _
  rw [hgw, hgh, hcur, List.eq_replicate_iff]
  have hlen : (computeNext w h (List.replicate (w * h).toNat 0) g.nextGrid).length
      = (w * h).toNat := by
    rw [computeNext_eq_evalCells, evalCells_length]
    omega
  refine ⟨hlen, ?_⟩
  intro b hb
  obtain ⟨j, hj, rfl⟩ := List.mem_iff_getElem.1 hb
  have hj1 : (j : Int) < w * h := by omega
  have hs := slot_surjective w h (j : Int) (by omega) (by omega) hj1
  have hr := computeNext_read w h (List.replicate (w * h).toNat 0) g.nextGrid hnext
    ((j : Int) % w) ((j : Int) / w) hs.1.1 hs.1.2 hs.2.1.1 hs.2.1.2
  rw [hs.2.2, readCell_eq_getElem?, List.getElem?_eq_getElem hj] at hr
  rw [show (computeNext w h (List.replicate (w * h).toNat 0) g.nextGrid)[j] = _ from hr]
  unfold nextValue
  rw [countNeighbors_replicate_zero]
  rfl

/-- C8 on the all-dead 3x2 grid whose next buffer holds leftover sevens. -/
theorem all_dead_fixed_witness :
    (allDead 3 2 (fun _ => 7)).nextGrid = [7, 7, 7, 7, 7, 7] ∧
    (step (allDead 3 2 (fun _ => 7)) 1).currentGrid = List.replicate ((3 : Int) * 2).toNat 0 :=
  ⟨by decide,
   all_dead_fixed (allDead 3 2 (fun _ => 7)) 3 2 rfl rfl (by decide) (by decide) rfl
    (by decide)⟩

/-! ## The next buffer in closed form -/

theorem intRange_getElem? (n : Int) (j : Nat) :
    (intRange n)[j]? = if (j : Int) < n then some (j : Int) else none := by
  unfold intRange
  rw [List.getElem?_map]
  by_cases hj : (j : Int) < n
  · rw [if_pos hj, List.getElem?_range (by omega)]
    rfl
  · rw [if_neg hj, List.getElem?_eq_none (by rw [List.length_range]; omega)]
    rfl

theorem mem_slots (w h : Int) (hw : 0 ≤ w) (hh : 0 ≤ h) (j : Nat) :
    (j : Int) ∈ (cellOrder w h).map (fun c => c.1 * w + c.2) ↔ (j : Int) < w * h := by
  have e : (cellOrder w h).map (fun c => c.1 * w + c.2) = intRange (w * h) :=
    writtenIndices_eq w h hw hh
  rw [e, mem_intRange]
  omega

/-- With both dimensions non-negative and a next buffer of `w*h` cells, the
two loops overwrite every slot: slot `i` receives the rule's value. -/
theorem computeNext_closed (w h : Int) (cur nxt : List Int) (hw : 0 ≤ w) (hh : 0 ≤ h)
    (hlen : (nxt.length : Int) = w * h) :
    computeNext w h cur nxt = (intRange (w * h)).map (nextValueAt cur w h) := by
  apply List.ext_getElem?
  intro j
  rw [computeNext_eq_evalCells, evalCells_getElem? w h cur _ (cellOrder_snd w h),
    List.getElem?_map, intRange_getElem?]
  by_cases hj : (j : Int) < w * h
  · have hl : j < nxt.length := by omega
    rw [if_pos ((mem_slots w h hw hh j).2 hj), if_pos hj, List.getElem?_eq_getElem hl]
    simp only [Option.map]
  · have hl : nxt.length ≤ j := by omega
    rw [if_neg (fun hm => hj ((mem_slots w h hw hh j).1 hm)), if_neg hj,
      List.getElem?_eq_none hl]
    simp only [Option.map]

theorem readCell_map_intRange (n : Int) (f : Int → Int) (i : Int) :
    readCell ((intRange n).map f) i = if 0 ≤ i ∧ i < n then f i else 0 := by
  by_cases hi : 0 ≤ i
  · obtain ⟨j, rfl⟩ : ∃ j : Nat, i = (j : Int) := ⟨i.toNat, by omega⟩
    rw [readCell_eq_getElem?, List.getElem?_map, intRange_getElem?]
    by_cases hj : (j : Int) < n
    · rw [if_pos hj, if_pos ⟨hi, hj⟩]; rfl
    · rw [if_neg hj, if_neg (fun hc => hj hc.2)]; rfl
  · unfold readCell
    rw [if_neg hi, if_neg (fun hc => hi hc.1)]

theorem nextValue_binary (cur : List Int) (w h y x : Int) :
    nextValue cur w h y x = 0 ∨ nextValue cur w h y x = 1 := by
  unfold nextValue
  split
  · exact Or.inr rfl
  · exact Or.inl rfl

/-! ## Well formed grids along `step` -/

theorem generation_dims (g : GameOfLife) :
    (generation g).width = g.width ∧ (generation g).height = g.height :=
  ⟨rfl, rfl⟩

theorem generation_wellFormed (g : GameOfLife) (hwf : WellFormed g) :
    WellFormed (generation g) := by
  unfold WellFormed at *
  have h1 : (generation g).currentGrid.length = g.nextGrid.length := by
    show (computeNext g.width g.height g.currentGrid g.nextGrid).length = _
    rw [computeNext_eq_evalCells, evalCells_length]
  have h2 : (generation g).nextGrid = g.currentGrid := rfl
  rw [h1, h2, (generation_dims g).1, (generation_dims g).2]
  exact ⟨hwf.2, hwf.1⟩

theorem stepLoop_invariant (k : Nat) (g : GameOfLife) (hwf : WellFormed g) :
    (stepLoop k g).width = g.width ∧ (stepLoop k g).height = g.height ∧
    WellFormed (stepLoop k g) := by
  induction k generalizing g with
  | zero => exact ⟨rfl, rfl, hwf⟩
  | succ k ih =>
    rw [stepLoop]
    have h := ih (generation g) (generation_wellFormed g hwf)
    exact ⟨h.1, h.2.1, h.2.2⟩

theorem stepLoop_succ_last (k : Nat) (g : GameOfLife) :
    stepLoop (k + 1) g = generation (stepLoop k g) := by
  rw [stepLoop_add k 1 g]
  rfl

/-- On a grid with positive dimensions one generation does not look at the
old content of the next buffer. -/
theorem generation_next_irrelevant (g1 g2 : GameOfLife)
    (hw : 1 ≤ g1.width) (hh : 1 ≤ g1.height)
    (ewidth : g1.width = g2.width) (eheight : g1.height = g2.height)
    (ecur : g1.currentGrid = g2.currentGrid) (etime : g1.timeStep = g2.timeStep)
    (wf1 : WellFormed g1) (wf2 : WellFormed g2) :
    generation g1 = generation g2 := by
  have hl2 : (g2.nextGrid.length : Int) = g1.width * g1.height := by
    rw [ewidth, eheight]; exact wf2.2
  have c1 := computeNext_closed g1.width g1.height g1.currentGrid g1.nextGrid
    (by omega) (by omega) wf1.2
  have c2 := computeNext_closed g1.width g1.height g1.currentGrid g2.nextGrid
    (by omega) (by omega) hl2
  unfold generation
  rw [← ewidth, ← eheight, ← ecur, ← etime, c1, c2]

/-- C14: for `w, h >= 1`, two grids with equal dimensions, current buffer and
counter but different contents of the next buffer (both buffers holding `w*h`
cells) have equal current buffers and counters after `step(n)`, for every
`n >= 0`. -/
theorem step_next_irrelevant (g1 g2 : GameOfLife) (w h n : Int)
    (h1w : g1.width = w) (h1h : g1.height = h) (h2w : g2.width = w) (h2h : g2.height = h)
    (hw : 1 ≤ w) (hh : 1 ≤ h) (_hn : 0 ≤ n)
    (ecur : g1.currentGrid = g2.currentGrid) (etime : g1.timeStep = g2.timeStep)
    (wf1 : WellFormed g1) (wf2 : WellFormed g2) :
    (step g1 n).currentGrid = (step g2 n).currentGrid ∧
    (step g1 n).timeStep = (step g2 n).timeStep := by
  unfold step
  cases n.toNat with
  | zero => exact ⟨ecur, etime⟩
  | succ k =>
    have e : generation g1 = generation g2 :=
      generation_next_irrelevant g1 g2 (by omega) (by omega) (by omega) (by omega)
        ecur etime wf1 wf2
    rw [stepLoop, stepLoop, e]
    exact ⟨rfl, rfl⟩

/-- C14 on `rebirthGrid` and `rebirthGridJunk`, which differ only in the next
buffer, after 3 generations. -/
theorem step_next_irrelevant_witness :
    rebirthGrid.nextGrid ≠ rebirthGridJunk.nextGrid ∧
    (step rebirthGrid 3).currentGrid = (step rebirthGridJunk 3).currentGrid ∧
    (step rebirthGrid 3).timeStep = (step rebirthGridJunk 3).timeStep :=
  ⟨by decide,
   step_next_irrelevant rebirthGrid rebirthGridJunk 3 3 3 rfl rfl rfl rfl (by decide)
    (by decide) (by decide) rfl rfl (by decide) (by decide)⟩

/-! ## Binary cells -/

theorem foldl_writeCell_getElem? (val : Int → Int) (idxs : List Int) (b : List Int)
    (j : Nat) :
    (idxs.foldl (fun cur i => writeCell cur i (val i)) b)[j]? =
      if (j : Int) ∈ idxs then (b[j]?).map (fun _ => val j) else b[j]? := by
  induction idxs generalizing b with
  | nil => simp
  | cons i is ih =>
    rw [List.foldl_cons, ih, writeCell_getElem?]
    by_cases hj : (j : Int) ∈ is
    · rw [if_pos hj, if_pos (List.mem_cons_of_mem _ hj)]
      by_cases hij : i = (j : Int)
      · rw [if_pos hij]; cases b[j]? <;> rfl
      · rw [if_neg hij]
    · rw [if_neg hj]
      by_cases hij : i = (j : Int)
      · rw [if_pos hij, ← hij, if_pos (List.mem_cons_self _ _)]
      · have hj2 : ¬ (j : Int) ∈ i :: is := by
          rw [List.mem_cons]
          rintro (h1 | h1)
          · exact hij h1.symm
          · exact hj h1
        rw [if_neg hij, if_neg hj2]

/-- The loop of `initializeRandom` overwrites every cell of a current buffer
that holds as many cells as the `int` product `width * height` says. -/
theorem initializeRandom_closed (g : GameOfLife) (randMax : Nat) (rands : Nat → Nat)
    (density : ℚ)
    (hlen : (g.currentGrid.length : Int) = wrapInt32 (g.width * g.height)) :
    (initializeRandom g randMax rands density).currentGrid =
      (intRange (wrapInt32 (g.width * g.height))).map
        (fun i => if drawnValue randMax (rands i.toNat) < density then 1 else 0) := by
  show (intRange (wrapInt32 (g.width * g.height))).foldl
    (fun cur i =>
      writeCell cur i (if drawnValue randMax (rands i.toNat) < density then 1 else 0))
    g.currentGrid = _
  apply List.ext_getElem?
  intro j
  rw [foldl_writeCell_getElem?
    (fun i => if drawnValue randMax (rands i.toNat) < density then 1 else 0),
    List.getElem?_map, intRange_getElem?]
  by_cases hj : (j : Int) < wrapInt32 (g.width * g.height)
  · have hl : j < g.currentGrid.length := by omega
    have hm : (j : Int) ∈ intRange (wrapInt32 (g.width * g.height)) :=
      (mem_intRange _ _).2 ⟨by omega, hj⟩
    rw [if_pos hm, if_pos hj, List.getElem?_eq_getElem hl]
    simp only [Option.map]
  · have hl : g.currentGrid.length ≤ j := by omega
    have hm : ¬ (j : Int) ∈ intRange (wrapInt32 (g.width * g.height)) :=
      fun hc => hj ((mem_intRange _ _).1 hc).2
    rw [if_neg hm, if_neg hj, List.getElem?_eq_none hl]
    simp only [Option.map]

theorem initializeRandom_binary (g : GameOfLife) (randMax : Nat) (rands : Nat → Nat)
    (density : ℚ)
    (hlen : (g.currentGrid.length : Int) = wrapInt32 (g.width * g.height)) :
    Binary (initializeRandom g randMax rands density).currentGrid := by
  rw [initializeRandom_closed g randMax rands density hlen]
  intro v hv
  obtain ⟨i, _, rfl⟩ := List.mem_map.1 hv
  split
  · exact Or.inr rfl
  · exact Or.inl rfl

/-- On a well formed grid whose product of the dimensions is an `int`, the
buffer holds as many cells as the `int` product says. -/
theorem wellFormed_length (g : GameOfLife) (hwf : WellFormed g)
    (hfit : g.width * g.height ≤ 2147483647) :
    (g.currentGrid.length : Int) = wrapInt32 (g.width * g.height) := by
  have h1 := hwf.1
  rw [wrapInt32_eq (g.width * g.height) (by omega) hfit]
  exact h1

theorem generation_binary (g : GameOfLife) (hw : 0 ≤ g.width) (hh : 0 ≤ g.height)
    (hwf : WellFormed g) : Binary (generation g).currentGrid := by
  show Binary (computeNext g.width g.height g.currentGrid g.nextGrid)
  rw [computeNext_closed g.width g.height g.currentGrid g.nextGrid hw hh hwf.2]
  intro v hv
  obtain ⟨i, _, rfl⟩ := List.mem_map.1 hv
  exact nextValue_binary _ _ _ _ _

/-- C15, as stated, fails on a grid the constructor builds from two negative
dimensions: with width -3 and height -2 the arrays hold 6 cells, the loops of
`step` run no body, and the swap makes the never written next buffer, here
full of fives, the current one. -/
theorem unwritten_buffer_becomes_current :
    constructChecked (-3) (-2) (some (fun _ => 0)) (some (fun _ => 5)) 32767 (fun i => i) =
      Except.ok negativeGrid ∧
    WellFormed negativeGrid ∧
    Binary negativeGrid.currentGrid ∧
    (step negativeGrid 1).currentGrid = [5, 5, 5, 5, 5, 5] ∧
    ¬ Binary (step negativeGrid 1).currentGrid := by
  have hstep : (step negativeGrid 1).currentGrid = [5, 5, 5, 5, 5, 5] := by decide
  refine ⟨constructChecked_granted _ _ _ _ _ _ (by decide),
    construct_wellFormed _ _ _ _ _ _ (by decide) (by decide), ?_, hstep, ?_⟩
  · unfold negativeGrid construct
    apply initializeRandom_binary
    decide
  · rw [hstep]
    intro hb
    have h5 := hb 5 (by decide)
    omega

/-- C15 (amended): on a grid with `w, h >= 1` whose buffers hold `w*h` cells
(`w*h` being an `int`), every cell of the current buffer is 0 or 1 after
`initializeRandom` and after `step(n)` for every `n >= 1`, whatever the
current buffer held before; hence a binary current buffer stays binary under
`step(m)` for every `m` and under `initializeRandom`. -/
theorem cells_always_binary (g : GameOfLife) (w h n : Int)
    (hgw : g.width = w) (hgh : g.height = h) (hw : 1 ≤ w) (hh : 1 ≤ h)
    (hfit : w * h ≤ 2147483647) (hwf : WellFormed g) (hn : 1 ≤ n)
    (randMax : Nat) (rands : Nat → Nat) (density : ℚ) :
    Binary (initializeRandom g randMax rands density).currentGrid ∧
    Binary (step g n).currentGrid ∧
    (Binary g.currentGrid → ∀ m : Int, Binary (step g m).currentGrid) := by
  have hstep : ∀ k : Nat, Binary (stepLoop (k + 1) g).currentGrid := by
    intro k
    have hinv := stepLoop_invariant k g hwf
    rw [stepLoop_succ_last]
    exact generation_binary _ (by omega) (by omega) hinv.2.2
  refine ⟨?_, ?_, ?_⟩
  · exact initializeRandom_binary g randMax rands density
      (wellFormed_length g hwf (by rw [hgw, hgh]; exact hfit))
  · unfold step
    obtain ⟨k, hk⟩ : ∃ k : Nat, n.toNat = k + 1 := ⟨n.toNat - 1, by omega⟩
    rw [hk]
    exact hstep k
  · intro hb m
    unfold step
    cases m.toNat with
    | zero => exact hb
    | succ k => exact hstep k

/-- C15 (amended) on `wildGrid`, whose current buffer is not binary, with
`n = 2`. -/
theorem cells_always_binary_witness :
    ¬ Binary wildGrid.currentGrid ∧
    (Binary (initializeRandom wildGrid 32767 (fun i => i * 5000) defaultDensity).currentGrid ∧
    Binary (step wildGrid 2).currentGrid ∧
    (Binary wildGrid.currentGrid → ∀ m : Int, Binary (step wildGrid m).currentGrid)) :=
  ⟨fun hb => by
      have h7 := hb 7 (by decide)
      omega,
   cells_always_binary wildGrid 3 3 2 rfl rfl (by decide) (by decide) (by decide)
    (by decide) (by decide) 32767 (fun i => i * 5000) defaultDensity⟩

/-! ## Monotonicity -/

theorem neighborIndex_range (w h x y dx dy : Int) (hw : 1 ≤ w) (hh : 1 ≤ h) :
    0 ≤ neighborIndex w h x y dx dy ∧ neighborIndex w h x y dx dy < w * h := by
  have hx := wrapCoord_range (x + dx) w hw
  have hy := wrapCoord_range (y + dy) h hh
  exact slot_range w h _ _ hx.1 hx.2 hy.1 hy.2

/-- Every neighbour read is the read of a cell of the grid. -/
theorem neighborIndex_cell (w h x y dx dy : Int) (hw : 1 ≤ w) (hh : 1 ≤ h) :
    ∃ nx ny : Int, (0 ≤ nx ∧ nx < w) ∧ (0 ≤ ny ∧ ny < h) ∧
      neighborIndex w h x y dx dy = ny * w + nx :=
  ⟨wrapCoord (x + dx) w, wrapCoord (y + dy) h, wrapCoord_range _ w hw,
    wrapCoord_range _ h hh, rfl⟩

theorem countNeighbors_mono (a b : List Int) (w h x y : Int) (hw : 1 ≤ w) (hh : 1 ≤ h)
    (hle : ∀ cx cy : Int, 0 ≤ cx → cx < w → 0 ≤ cy → cy < h →
      readCell a (cy * w + cx) ≤ readCell b (cy * w + cx)) :
    countNeighbors a w h x y ≤ countNeighbors b w h x y := by
  have e : ∀ dx dy : Int, readCell a (neighborIndex w h x y dx dy) ≤
      readCell b (neighborIndex w h x y dx dy) := by
    intro dx dy
    obtain ⟨nx, ny, hx, hy, hi⟩ := neighborIndex_cell w h x y dx dy hw hh
    rw [hi]
    exact hle nx ny hx.1 hx.2 hy.1 hy.2
  rw [countNeighbors_unroll, countNeighbors_unroll]
  have h1 := e (-1) (-1)
  have h2 := e 0 (-1)
  have h3 := e 1 (-1)
  have h4 := e (-1) 0
  have h5 := e 1 0
  have h6 := e (-1) 1
  have h7 := e 0 1
  have h8 := e 1 1
  omega

/-- C17: for `w, h >= 1` and current buffers A and B of the same dimensions
with `A(c) <= B(c)` at every cell `c`, the result of stepping A is cell-wise
`<=` the result of stepping B; so a cell alive after stepping A is alive after
stepping B. -/
theorem step_monotone (gA gB : GameOfLife) (w h x y : Int)
    (hAw : gA.width = w) (hAh : gA.height = h) (hBw : gB.width = w) (hBh : gB.height = h)
    (wfA : WellFormed gA) (wfB : WellFormed gB) (hw : 1 ≤ w) (hh : 1 ≤ h)
    (hle : ∀ cx cy : Int, 0 ≤ cx → cx < w → 0 ≤ cy → cy < h →
      readCell gA.currentGrid (cy * w + cx) ≤ readCell gB.currentGrid (cy * w + cx))
    (hx0 : 0 ≤ x) (hxw : x < w) (hy0 : 0 ≤ y) (hyh : y < h) :
    readCell (step gA 1).currentGrid (y * w + x) ≤
      readCell (step gB 1).currentGrid (y * w + x) ∧
    (readCell (step gA 1).currentGrid (y * w + x) = 1 →
      readCell (step gB 1).currentGrid (y * w + x) = 1) := by
  have hlA : (gA.nextGrid.length : Int) = w * h := by rw [← hAw, ← hAh]; exact wfA.2
  have hlB : (gB.nextGrid.length : Int) = w * h := by rw [← hBw, ← hBh]; exact wfB.2
  have hc := countNeighbors_mono gA.currentGrid gB.currentGrid w h x y hw hh hle
  rw [step_one, step_one]
  show readCell (computeNext gA.width gA.height gA.currentGrid gA.nextGrid) (y * w + x) ≤
      readCell (computeNext gB.width gB.height gB.currentGrid gB.nextGrid) (y * w + x) ∧
    (readCell (computeNext gA.width gA.height gA.currentGrid gA.nextGrid) (y * w + x) = 1 →
      readCell (computeNext gB.width gB.height gB.currentGrid gB.nextGrid) (y * w + x) = 1)
  rw [hAw, hAh, hBw, hBh,
    computeNext_read w h gA.currentGrid gA.nextGrid hlA x y hx0 hxw hy0 hyh,
    computeNext_read w h gB.currentGrid gB.nextGrid hlB x y hx0 hxw hy0 hyh]
  unfold nextValue
  constructor
  · split <;> split <;> omega
  · split <;> split <;> omega

/-- C17 on `rebirthGrid <= rebirthGridAlive` at the centre cell. -/
theorem step_monotone_witness :
    readCell (step rebirthGrid 1).currentGrid (1 * 3 + 1) ≤
      readCell (step rebirthGridAlive 1).currentGrid (1 * 3 + 1) ∧
    (readCell (step rebirthGrid 1).currentGrid (1 * 3 + 1) = 1 →
      readCell (step rebirthGridAlive 1).currentGrid (1 * 3 + 1) = 1) :=
  step_monotone rebirthGrid rebirthGridAlive 3 3 1 1 rfl rfl rfl rfl (by decide) (by decide)
    (by decide) (by decide)
    (fun cx cy _ _ _ _ => by
      by_cases e : cy * 3 + cx = 1 * 3 + 1
      · rw [e]; decide
      · exact le_of_eq
          (readCell_writeCell_ne rebirthGrid.currentGrid (1 * 3 + 1) 1 _ e).symm)
    (by decide) (by decide) (by decide) (by decide)

/-! ## The all-alive grid -/

theorem readCell_replicate_one (n : Nat) (i : Int) (hi0 : 0 ≤ i) (hi1 : i < (n : Int)) :
    readCell (List.replicate n 1) i = 1 := by
  unfold readCell
  rw [if_pos hi0, List.getD_eq_getElem?_getD, List.getElem?_replicate, if_pos (by omega)]
  rfl

theorem countNeighbors_replicate_one (w h x y : Int) (hw : 1 ≤ w) (hh : 1 ≤ h) :
    countNeighbors (List.replicate (w * h).toNat 1) w h x y = 8 := by
  have e : ∀ dx dy : Int,
      readCell (List.replicate (w * h).toNat 1) (neighborIndex w h x y dx dy) = 1 := by
    intro dx dy
    have hr := neighborIndex_range w h x y dx dy hw hh
    exact readCell_replicate_one _ _ hr.1 (by omega)
  rw [countNeighbors_unroll]
  simp only [e]
  rfl

/-- C18: for `w, h >= 1` (widths and heights 1 and 2 included, where wrapped
neighbours coincide and are counted with multiplicity) the all-alive grid has
neighbour count exactly 8 at every cell and one generation of `step` leaves
its current buffer all alive. -/
theorem all_alive_fixed (g : GameOfLife) (w h : Int) (hgw : g.width = w) (hgh : g.height = h)
    (hw : 1 ≤ w) (hh : 1 ≤ h)
    (hcur : g.currentGrid = List.replicate (w * h).toNat 1)
    (hnext : (g.nextGrid.length : Int) = w * h) :
    (∀ x y : Int, 0 ≤ x → x < w → 0 ≤ y → y < h →
      countNeighbors g.currentGrid w h x y = 8 ∧ specNeighborSum g.currentGrid w h x y = 8) ∧
    (step g 1).currentGrid = List.replicate (w * h).toNat 1 := by
  constructor
  · intro x y hx0 hxw hy0 hyh
    rw [← countNeighbors_eq_spec g.currentGrid w h x y hw hh hx0 hxw hy0 hyh, hcur]
    exact ⟨countNeighbors_replicate_one w h x y hw hh,
      countNeighbors_replicate_one w h x y hw hh⟩
  · rw [step_one]
    show computeNext g.width g.height g.currentGrid g.nextGrid = _
    rw [hgw, hgh, hcur, computeNext_closed w h _ g.nextGrid (by omega) (by omega) hnext,
      List.eq_replicate_iff]
    refine ⟨by rw [List.length_map, intRange_length], ?_⟩
    intro v hv
    obtain ⟨i, _, rfl⟩ := List.mem_map.1 hv
    unfold nextValueAt nextValue
    rw [countNeighbors_replicate_one w h _ _ hw hh]
    rfl

/-- C18 on the all-alive 1x2 grid, where each cell is twice its own neighbour
and six times the neighbour of the other cell. -/
theorem all_alive_fixed_witness :
    countNeighbors (allAlive 1 2 (fun _ => 7)).currentGrid 1 2 0 1 = 8 ∧
    ((∀ x y : Int, 0 ≤ x → x < 1 → 0 ≤ y → y < 2 →
      countNeighbors (allAlive 1 2 (fun _ => 7)).currentGrid 1 2 x y = 8 ∧
      specNeighborSum (allAlive 1 2 (fun _ => 7)).currentGrid 1 2 x y = 8) ∧
    (step (allAlive 1 2 (fun _ => 7)) 1).currentGrid =
      List.replicate ((1 : Int) * 2).toNat 1) :=
  ⟨by decide,
   all_alive_fixed (allAlive 1 2 (fun _ => 7)) 1 2 rfl rfl (by decide) (by decide) rfl
    (by decide)⟩

/-! ## Toroidal translation -/

theorem cellOrder_eq_decode (w h : Int) (hw : 0 ≤ w) (hh : 0 ≤ h) :
    cellOrder w h = (intRange (w * h)).map (fun i => (i / w, i % w)) := by
  have e : (cellOrder w h).map (fun c => c.1 * w + c.2) = intRange (w * h) :=
    writtenIndices_eq w h hw hh
  rw [← e, List.map_map]
  symm
  conv_rhs => rw [← List.map_id (cellOrder w h)]
  apply List.map_congr_left
  intro c hc
  have hs := cellOrder_snd w h c hc
  have hd := slot_decode w c.1 c.2 hs.1 hs.2
  show ((c.1 * w + c.2) / w, (c.1 * w + c.2) % w) = c
  rw [hd.1, hd.2]

theorem translate_length (w h a b : Int) (buf : List Int) (hw : 0 ≤ w) (hh : 0 ≤ h) :
    (translate w h a b buf).length = (w * h).toNat := by
  unfold translate
  rw [cellOrder_eq_decode w h hw hh, List.length_map, List.length_map, intRange_length]

theorem translate_read (w h a b : Int) (buf : List Int) (hw : 0 ≤ w) (hh : 0 ≤ h)
    (x y : Int) (hx0 : 0 ≤ x) (hxw : x < w) (hy0 : 0 ≤ y) (hyh : y < h) :
    readCell (translate w h a b buf) (y * w + x) =
      readCell buf (((y + b) % h) * w + ((x + a) % w)) := by
  have hr := slot_range w h y x hx0 hxw hy0 hyh
  have hd := slot_decode w y x hx0 hxw
  unfold translate
  rw [cellOrder_eq_decode w h hw hh, List.map_map, readCell_map_intRange, if_pos hr]
  show readCell buf ((((y * w + x) / w + b) % h) * w + (((y * w + x) % w + a) % w)) = _
  rw [hd.1, hd.2]

theorem shift_wrap (c d s n : Int) : ((c + d) % n + s) % n = ((c + s) % n + d) % n := by
  rw [Int.emod_add_emod, Int.emod_add_emod, Int.add_right_comm]

theorem specNeighborSum_translate (w h a b : Int) (buf : List Int) (hw : 1 ≤ w) (hh : 1 ≤ h)
    (x y : Int) :
    specNeighborSum (translate w h a b buf) w h x y =
      specNeighborSum buf w h ((x + a) % w) ((y + b) % h) := by
  unfold specNeighborSum
  congr 1
  apply List.map_congr_left
  intro d _
  have hx : 0 ≤ (x + d.1) % w ∧ (x + d.1) % w < w :=
    ⟨Int.emod_nonneg _ (by omega), Int.emod_lt_of_pos _ (by omega)⟩
  have hy : 0 ≤ (y + d.2) % h ∧ (y + d.2) % h < h :=
    ⟨Int.emod_nonneg _ (by omega), Int.emod_lt_of_pos _ (by omega)⟩
  rw [translate_read w h a b buf (by omega) (by omega) _ _ hx.1 hx.2 hy.1 hy.2,
    shift_wrap y d.2 b h, shift_wrap x d.1 a w]

/-- C16: for `w, h >= 1` and every shift `(a, b)`, stepping the translated
grid `G'(x,y) = G((x+a) mod w, (y+b) mod h)` gives the translation by `(a, b)`
of the result of stepping `G`. -/
theorem step_commutes_with_translation (g gT : GameOfLife) (w h a b : Int)
    (hgw : g.width = w) (hgh : g.height = h) (hTw : gT.width = w) (hTh : gT.height = h)
    (hw : 1 ≤ w) (hh : 1 ≤ h) (wf : WellFormed g) (wfT : WellFormed gT)
    (hT : gT.currentGrid = translate w h a b g.currentGrid) :
    (∀ x y : Int, 0 ≤ x → x < w → 0 ≤ y → y < h →
      readCell gT.currentGrid (y * w + x) =
        readCell g.currentGrid (((y + b) % h) * w + ((x + a) % w))) ∧
    (step gT 1).currentGrid = translate w h a b (step g 1).currentGrid := by
  have hl : (g.nextGrid.length : Int) = w * h := by rw [← hgw, ← hgh]; exact wf.2
  have hlT : (gT.nextGrid.length : Int) = w * h := by rw [← hTw, ← hTh]; exact wfT.2
  constructor
  · intro x y hx0 hxw hy0 hyh
    rw [hT]
    exact translate_read w h a b _ (by omega) (by omega) x y hx0 hxw hy0 hyh
  · rw [step_one, step_one]
    show computeNext gT.width gT.height gT.currentGrid gT.nextGrid =
      translate w h a b (computeNext g.width g.height g.currentGrid g.nextGrid)
    rw [hTw, hTh, hgw, hgh, hT,
      computeNext_closed w h _ gT.nextGrid (by omega) (by omega) hlT]
    unfold translate
    rw [cellOrder_eq_decode w h (by omega) (by omega), List.map_map, List.map_map]
    apply List.map_congr_left
    intro i hi
    have hi2 := (mem_intRange _ _).1 hi
    have hs := slot_surjective w h i (by omega) hi2.1 hi2.2
    have hx : 0 ≤ (i % w + a) % w ∧ (i % w + a) % w < w :=
      ⟨Int.emod_nonneg _ (by omega), Int.emod_lt_of_pos _ (by omega)⟩
    have hy : 0 ≤ (i / w + b) % h ∧ (i / w + b) % h < h :=
      ⟨Int.emod_nonneg _ (by omega), Int.emod_lt_of_pos _ (by omega)⟩
    show nextValueAt _ w h i =
      readCell (computeNext w h g.currentGrid g.nextGrid)
        (((i / w + b) % h) * w + ((i % w + a) % w))
    rw [computeNext_read w h g.currentGrid g.nextGrid hl _ _ hx.1 hx.2 hy.1 hy.2]
    unfold nextValueAt nextValue
    rw [countNeighbors_eq_spec _ w h _ _ hw hh hs.1.1 hs.1.2 hs.2.1.1 hs.2.1.2,
      countNeighbors_eq_spec _ w h _ _ hw hh hx.1 hx.2 hy.1 hy.2]
    have e := specNeighborSum_translate w h a b g.currentGrid hw hh (i % w) (i / w)
    unfold translate at e
    rw [cellOrder_eq_decode w h (by omega) (by omega), List.map_map] at e
    rw [e]

/-- C16 on `rebirthGrid` and its translation by `(1, 2)`. -/
theorem step_commutes_with_translation_witness :
    rebirthGridShifted.currentGrid = [0, 0, 0, 1, 1, 1, 0, 0, 1] ∧
    ((∀ x y : Int, 0 ≤ x → x < 3 → 0 ≤ y → y < 3 →
      readCell rebirthGridShifted.currentGrid (y * 3 + x) =
        readCell rebirthGrid.currentGrid (((y + 2) % 3) * 3 + ((x + 1) % 3))) ∧
    (step rebirthGridShifted 1).currentGrid =
      translate 3 3 1 2 (step rebirthGrid 1).currentGrid) :=
  ⟨by decide,
   step_commutes_with_translation rebirthGrid rebirthGridShifted 3 3 1 2 rfl rfl rfl rfl
    (by decide) (by decide) (by decide) (by decide) rfl⟩

/-! ## Construction -/

theorem construct_empty (w h : Int) (junkCur junkNext : Nat → Int) (randMax : Nat)
    (rands : Nat → Nat) (hz : wrapInt32 (w * h) = 0) :
    construct w h junkCur junkNext randMax rands =
      { width := w, height := h, currentGrid := [], nextGrid := [], timeStep := 0 } := by
  simp [construct, initializeRandom, hz, intRange, newIntArray]

/-- C11, as stated, fails: the constructor called with width 0 and height 5
does not fail; with both allocations granted it yields a grid with no cells. -/
theorem zero_width_grid_is_created :
    (0 : Int) ≤ 0 ∧
    constructChecked 0 5 (some (fun _ => 7)) (some (fun _ => 9)) 32767 (fun i => i) =
      Except.ok { width := 0, height := 5, currentGrid := [], nextGrid := [], timeStep := 0 } := by
  refine ⟨by decide, ?_⟩
  rw [constructChecked_granted 0 5 _ _ 32767 _ (by decide),
    construct_empty 0 5 _ _ 32767 _ (by decide)]

/-- C11 (amended): the constructor makes no dimension check.  Creating a grid
with width > 0 and height > 0 succeeds when the product is an `int` and both
allocations are granted, and yields a grid of these dimensions with `w*h`
cells per buffer and counter 0.  With width 0 or height 0 creation succeeds
as well when the allocations are granted, and yields a grid with no cells.
With one dimension negative and the other positive (the product being an
`int`) creation fails and yields no grid: the array allocation throws. -/
theorem construct_outcome (w h : Int) (junkCur junkNext : Nat → Int)
    (heapCur heapNext : Option (Nat → Int)) (randMax : Nat) (rands : Nat → Nat) :
    (0 < w → 0 < h → w * h ≤ 2147483647 →
      ∃ g : GameOfLife,
        constructChecked w h (some junkCur) (some junkNext) randMax rands = Except.ok g ∧
        g.width = w ∧ g.height = h ∧ WellFormed g ∧ g.timeStep = 0) ∧
    (w = 0 ∨ h = 0 →
      constructChecked w h (some junkCur) (some junkNext) randMax rands =
        Except.ok { width := w, height := h, currentGrid := [], nextGrid := [],
                    timeStep := 0 }) ∧
    ((w < 0 ∧ 0 < h) ∨ (0 < w ∧ h < 0) → -2147483648 ≤ w * h →
      constructChecked w h heapCur heapNext randMax rands =
        Except.error AllocError.badArrayNewLength) := by
  refine ⟨?_, ?_, ?_⟩
  · intro hw hh hfit
    have hpos : 0 ≤ w * h := by positivity
    have e := wrapInt32_eq (w * h) (by omega) hfit
    exact ⟨construct w h junkCur junkNext randMax rands,
      constructChecked_granted w h junkCur junkNext randMax rands (by omega), rfl, rfl,
      construct_wellFormed w h junkCur junkNext randMax rands hpos hfit, rfl⟩
  · intro hz
    have hprod : w * h = 0 := by
      rcases hz with hz | hz <;> rw [hz] <;> simp
    have e : wrapInt32 (w * h) = 0 := by rw [hprod]; decide
    rw [constructChecked_granted w h junkCur junkNext randMax rands (by omega),
      construct_empty w h junkCur junkNext randMax rands e]
  · intro hsign hlo
    have hneg : w * h < 0 := by
      rcases hsign with ⟨h1, h2⟩ | ⟨h1, h2⟩
      · exact mul_neg_of_neg_of_pos h1 h2
      · exact mul_neg_of_pos_of_neg h1 h2
    have e := wrapInt32_eq (w * h) hlo (by omega)
    exact constructChecked_negative w h heapCur heapNext randMax rands (by omega)

/-- C11 (amended) on the dimensions 3 and 2, with the second request refused
in the failing case 3 and -2. -/
theorem construct_outcome_witness :
    constructChecked 3 2 (some (fun _ => 7)) (some (fun _ => 9)) 32767 (fun i => i) =
      Except.ok (construct 3 2 (fun _ => 7) (fun _ => 9) 32767 (fun i => i)) ∧
    (construct 3 2 (fun _ => 7) (fun _ => 9) 32767 (fun i => i)).nextGrid
      = [9, 9, 9, 9, 9, 9] ∧
    ((0 < (3 : Int) → 0 < (2 : Int) → (3 : Int) * 2 ≤ 2147483647 →
      ∃ g : GameOfLife,
        constructChecked 3 2 (some (fun _ => 7)) (some (fun _ => 9)) 32767 (fun i => i) =
          Except.ok g ∧
        g.width = 3 ∧ g.height = 2 ∧ WellFormed g ∧ g.timeStep = 0) ∧
    ((3 : Int) = 0 ∨ (2 : Int) = 0 →
      constructChecked 3 2 (some (fun _ => 7)) (some (fun _ => 9)) 32767 (fun i => i) =
        Except.ok { width := 3, height := 2, currentGrid := [], nextGrid := [],
                    timeStep := 0 }) ∧
    (((3 : Int) < 0 ∧ 0 < (2 : Int)) ∨ (0 < (3 : Int) ∧ (2 : Int) < 0) →
      -2147483648 ≤ (3 : Int) * 2 →
      constructChecked 3 2 (some (fun _ => 7)) none 32767 (fun i => i) =
        Except.error AllocError.badArrayNewLength)) :=
  ⟨constructChecked_granted 3 2 _ _ 32767 _ (by decide), by decide,
   construct_outcome 3 2 (fun _ => 7) (fun _ => 9) (some (fun _ => 7)) none 32767
    (fun i => i)⟩

/-! ## Rounding to `float` -/

theorem roundHalfEven_bounds (q : ℚ) :
    ⌊q⌋ ≤ roundHalfEven q ∧ roundHalfEven q ≤ ⌊q⌋ + 1 := by
  unfold roundHalfEven
  simp only
  split
  · omega
  · split
    · omega
    · split <;> omega

theorem roundHalfEven_intCast (n : Int) : roundHalfEven (n : ℚ) = n := by
  unfold roundHalfEven
  simp

theorem roundHalfEven_mono (x y : ℚ) (hxy : x ≤ y) : roundHalfEven x ≤ roundHalfEven y := by
  have hf : ⌊x⌋ ≤ ⌊y⌋ := Int.floor_mono hxy
  rcases lt_or_eq_of_le hf with hlt | heq
  · have h1 := (roundHalfEven_bounds x).2
    have h2 := (roundHalfEven_bounds y).1
    omega
  · unfold roundHalfEven
    simp only
    rw [← heq]
    have hfrac : x - ⌊x⌋ ≤ y - ⌊x⌋ := by linarith
    by_cases hx1 : x - ⌊x⌋ < 1 / 2
    · rw [if_pos hx1]
      by_cases hy1 : y - ⌊x⌋ < 1 / 2
      · rw [if_pos hy1]
      · rw [if_neg hy1]
        split
        · omega
        · split <;> omega
    · rw [if_neg hx1]
      have hy1 : ¬ y - ⌊x⌋ < 1 / 2 := by
        intro hc; exact hx1 (lt_of_le_of_lt hfrac hc)
      rw [if_neg hy1]
      by_cases hx2 : 1 / 2 < x - ⌊x⌋
      · rw [if_pos hx2, if_pos (lt_of_lt_of_le hx2 hfrac)]
      · rw [if_neg hx2]
        by_cases hy2 : 1 / 2 < y - ⌊x⌋
        · rw [if_pos hy2]
          split <;> omega
        · rw [if_neg hy2]

theorem roundHalfEven_le_int (x : ℚ) (n : Int) (h : x ≤ (n : ℚ)) : roundHalfEven x ≤ n := by
  have := roundHalfEven_mono x n h
  rwa [roundHalfEven_intCast] at this

theorem int_le_roundHalfEven (x : ℚ) (n : Int) (h : (n : ℚ) ≤ x) : n ≤ roundHalfEven x := by
  have := roundHalfEven_mono n x h
  rwa [roundHalfEven_intCast] at this

theorem two_zpow_pos (e : Int) : (0 : ℚ) < 2 ^ e := by positivity

theorem two_zpow_mono (a b : Int) (h : a ≤ b) : (2 : ℚ) ^ a ≤ 2 ^ b :=
  zpow_le_zpow_right₀ (by norm_num) h

theorem ulpExponent_mono (x y : ℚ) (hx : 0 < x) (hxy : x ≤ y) :
    ulpExponent x ≤ ulpExponent y := by
  unfold ulpExponent
  rw [abs_of_pos hx, abs_of_pos (lt_of_lt_of_le hx hxy)]
  have hl : Int.log 2 x ≤ Int.log 2 y := Int.log_mono_right hx hxy
  omega

/-- The scaled value stays below `2^24`. -/
theorem scaled_lt (x : ℚ) (hx : 0 < x) : x / 2 ^ ulpExponent x < 2 ^ (24 : Int) := by
  have hlog : x < ((2 : ℕ) : ℚ) ^ (Int.log 2 x + 1) :=
    Int.lt_zpow_succ_log_self (by norm_num) x
  have he : Int.log 2 x - 23 ≤ ulpExponent x := by
    unfold ulpExponent; rw [abs_of_pos hx]; exact le_max_left _ _
  rw [div_lt_iff₀ (two_zpow_pos _), ← zpow_add₀ (by norm_num : (2 : ℚ) ≠ 0)]
  have hm := two_zpow_mono (Int.log 2 x + 1) (24 + ulpExponent x) (by omega)
  have hc : ((2 : ℕ) : ℚ) = 2 := by norm_num
  rw [hc] at hlog
  exact lt_of_lt_of_le hlog hm

/-- Above the subnormal range the scaled value is at least `2^23`. -/
theorem scaled_ge (x : ℚ) (hx : 0 < x) (he : -149 < ulpExponent x) :
    (2 : ℚ) ^ (23 : Int) ≤ x / 2 ^ ulpExponent x := by
  have hlog : ((2 : ℕ) : ℚ) ^ Int.log 2 x ≤ x := Int.zpow_log_le_self (by norm_num) hx
  have hu : ulpExponent x = Int.log 2 x - 23 := by
    unfold ulpExponent at he ⊢
    rw [abs_of_pos hx] at he ⊢
    omega
  rw [le_div_iff₀ (two_zpow_pos _), ← zpow_add₀ (by norm_num : (2 : ℚ) ≠ 0), hu]
  have hc : ((2 : ℕ) : ℚ) = 2 := by norm_num
  rw [hc] at hlog
  have e : (23 : Int) + (Int.log 2 x - 23) = Int.log 2 x := by omega
  rw [e]
  exact hlog

theorem roundFloat_zero : roundFloat 0 = 0 := by
  unfold roundFloat
  simp [roundHalfEven]

theorem roundFloat_nonneg (x : ℚ) (hx : 0 ≤ x) : 0 ≤ roundFloat x := by
  unfold roundFloat
  have h0 : (0 : ℚ) ≤ x / 2 ^ ulpExponent x := div_nonneg hx (le_of_lt (two_zpow_pos _))
  have h1 : (0 : Int) ≤ roundHalfEven (x / 2 ^ ulpExponent x) :=
    int_le_roundHalfEven _ 0 (by exact_mod_cast h0)
  have h2 : (0 : ℚ) ≤ (roundHalfEven (x / 2 ^ ulpExponent x) : ℚ) := by exact_mod_cast h1
  exact mul_nonneg h2 (le_of_lt (two_zpow_pos _))

/-- Rounding to `float` is monotone on the non-negative values. -/
theorem roundFloat_mono (x y : ℚ) (hx : 0 ≤ x) (hxy : x ≤ y) :
    roundFloat x ≤ roundFloat y := by
  rcases eq_or_lt_of_le hx with h0 | hpos
  · rw [← h0, roundFloat_zero]
    exact roundFloat_nonneg y (le_trans hx hxy)
  · have hy : 0 < y := lt_of_lt_of_le hpos hxy
    have he := ulpExponent_mono x y hpos hxy
    rcases eq_or_lt_of_le he with heq | hlt
    · unfold roundFloat
      rw [← heq]
      have hs : x / 2 ^ ulpExponent x ≤ y / 2 ^ ulpExponent x :=
        div_le_div_of_nonneg_right hxy (le_of_lt (two_zpow_pos _))
      have hr := roundHalfEven_mono _ _ hs
      have hr2 : (roundHalfEven (x / 2 ^ ulpExponent x) : ℚ) ≤
          (roundHalfEven (y / 2 ^ ulpExponent x) : ℚ) := by exact_mod_cast hr
      exact mul_le_mul_of_nonneg_right hr2 (le_of_lt (two_zpow_pos _))
    · have hux : roundHalfEven (x / 2 ^ ulpExponent x) ≤ (2 : Int) ^ (24 : Nat) := by
        apply roundHalfEven_le_int
        have := scaled_lt x hpos
        norm_num at this ⊢
        exact le_of_lt this
      have huy : (2 : Int) ^ (23 : Nat) ≤ roundHalfEven (y / 2 ^ ulpExponent y) := by
        apply int_le_roundHalfEven
        have huly : -149 < ulpExponent y := by
          have : -149 ≤ ulpExponent x := by unfold ulpExponent; exact le_max_right _ _
          omega
        have := scaled_ge y hy huly
        norm_num at this ⊢
        exact this
      have hux2 : (roundHalfEven (x / 2 ^ ulpExponent x) : ℚ) ≤ (2 : ℚ) ^ (24 : Int) := by
        have : ((roundHalfEven (x / 2 ^ ulpExponent x) : Int) : ℚ) ≤ ((2 : Int) ^ (24 : Nat) : Int) := by
          exact_mod_cast hux
        norm_num at this ⊢
        exact this
      have huy2 : (2 : ℚ) ^ (23 : Int) ≤ (roundHalfEven (y / 2 ^ ulpExponent y) : ℚ) := by
        have : (((2 : Int) ^ (23 : Nat) : Int) : ℚ) ≤ ((roundHalfEven (y / 2 ^ ulpExponent y) : Int) : ℚ) := by
          exact_mod_cast huy
        norm_num at this ⊢
        exact this
      unfold roundFloat
      calc (roundHalfEven (x / 2 ^ ulpExponent x) : ℚ) * 2 ^ ulpExponent x
          ≤ 2 ^ (24 : Int) * 2 ^ ulpExponent x :=
            mul_le_mul_of_nonneg_right hux2 (le_of_lt (two_zpow_pos _))
        _ = 2 ^ (24 + ulpExponent x) := by rw [zpow_add₀ (by norm_num : (2 : ℚ) ≠ 0)]
        _ ≤ 2 ^ (23 + ulpExponent y) := two_zpow_mono _ _ (by omega)
        _ = 2 ^ (23 : Int) * 2 ^ ulpExponent y := by rw [zpow_add₀ (by norm_num : (2 : ℚ) ≠ 0)]
        _ ≤ (roundHalfEven (y / 2 ^ ulpExponent y) : ℚ) * 2 ^ ulpExponent y :=
            mul_le_mul_of_nonneg_right huy2 (le_of_lt (two_zpow_pos _))

theorem ulpExponent_of_binade (x : ℚ) (k : Int) (hk : -126 ≤ k) (h1 : (2 : ℚ) ^ k ≤ x)
    (h2 : x < (2 : ℚ) ^ (k + 1)) : ulpExponent x = k - 23 := by
  have hx : 0 < x := lt_of_lt_of_le (two_zpow_pos k) h1
  have hc : ((2 : ℕ) : ℚ) = 2 := by norm_num
  have ha : k ≤ Int.log 2 x := by
    rw [← Int.zpow_le_iff_le_log (by norm_num) hx, hc]; exact h1
  have hb : Int.log 2 x < k + 1 := by
    rw [← Int.lt_zpow_iff_log_lt (by norm_num) hx, hc]; exact h2
  unfold ulpExponent
  rw [abs_of_pos hx]
  omega

theorem roundHalfEven_eq (q : ℚ) (n : Int) (h1 : (n : ℚ) - 1 / 2 < q)
    (h2 : q < (n : ℚ) + 1 / 2) : roundHalfEven q = n := by
  unfold roundHalfEven
  simp only
  by_cases hq : (n : ℚ) ≤ q
  · have hf : ⌊q⌋ = n := by
      rw [Int.floor_eq_iff]; constructor <;> linarith
    rw [hf, if_pos (by linarith)]
  · have hf : ⌊q⌋ = n - 1 := by
      rw [Int.floor_eq_iff]; push_cast; constructor <;> linarith
    rw [hf]
    push_cast
    rw [if_neg (by linarith), if_pos (by linarith)]
    omega

/-- The value of the rounding, with the binade `[2^k, 2^(k+1))` of `x` and the
nearest multiple `n * 2^(k-23)` given. -/
theorem roundFloat_eq (x : ℚ) (k n : Int) (hk : -126 ≤ k) (h1 : (2 : ℚ) ^ k ≤ x)
    (h2 : x < (2 : ℚ) ^ (k + 1)) (h3 : (n : ℚ) - 1 / 2 < x / 2 ^ (k - 23))
    (h4 : x / 2 ^ (k - 23) < (n : ℚ) + 1 / 2) :
    roundFloat x = (n : ℚ) * 2 ^ (k - 23) := by
  unfold roundFloat
  rw [ulpExponent_of_binade x k hk h1 h2, roundHalfEven_eq _ n h3 h4]

theorem roundFloat_one : roundFloat 1 = 1 := by
  rw [roundFloat_eq 1 0 (2 ^ 23) (by norm_num) (by norm_num) (by norm_num) (by norm_num)
    (by norm_num)]
  norm_num

theorem roundFloat_pos (x : ℚ) (hx : 1 ≤ x) : 1 ≤ roundFloat x := by
  have := roundFloat_mono 1 x (by norm_num) hx
  rwa [roundFloat_one] at this

theorem roundFloat_big_draw : roundFloat 2147483600 = 2147483648 := by
  rw [roundFloat_eq 2147483600 30 (2 ^ 24) (by norm_num) (by norm_num) (by norm_num)
    (by norm_num) (by norm_num)]
  norm_num

theorem roundFloat_int_max : roundFloat 2147483647 = 2147483648 := by
  rw [roundFloat_eq 2147483647 30 (2 ^ 24) (by norm_num) (by norm_num) (by norm_num)
    (by norm_num) (by norm_num)]
  norm_num

/-- The literal `0.35f` is `11744051 / 2^25`, a little below 35/100. -/
theorem defaultDensity_value : defaultDensity = 11744051 / 33554432 := by
  unfold defaultDensity
  rw [roundFloat_eq (35 / 100) (-2) 11744051 (by norm_num) (by norm_num) (by norm_num)
    (by norm_num) (by norm_num)]
  norm_num

/-! ## Random initialisation -/

theorem drawnValue_range (randMax r : Nat) (hmax : 0 < randMax) (hr : r ≤ randMax) :
    0 ≤ drawnValue randMax r ∧ drawnValue randMax r ≤ 1 := by
  unfold drawnValue
  have hr0 : (0 : ℚ) ≤ (r : ℚ) := by positivity
  have hle : (r : ℚ) ≤ (randMax : ℚ) := by exact_mod_cast hr
  have hm1 : (1 : ℚ) ≤ (randMax : ℚ) := by exact_mod_cast hmax
  have ha := roundFloat_nonneg (r : ℚ) hr0
  have hab := roundFloat_mono (r : ℚ) (randMax : ℚ) hr0 hle
  have hb := roundFloat_pos (randMax : ℚ) hm1
  have hbpos : (0 : ℚ) < roundFloat (randMax : ℚ) := by linarith
  have hq0 : (0 : ℚ) ≤ roundFloat (r : ℚ) / roundFloat (randMax : ℚ) :=
    div_nonneg ha (le_of_lt hbpos)
  have hq1 : roundFloat (r : ℚ) / roundFloat (randMax : ℚ) ≤ 1 := by
    rw [div_le_one hbpos]; exact hab
  constructor
  · exact roundFloat_nonneg _ hq0
  · have := roundFloat_mono _ 1 hq0 hq1
    rwa [roundFloat_one] at this

/-- A draw of `RAND_MAX` gives exactly 1. -/
theorem drawnValue_self (randMax : Nat) (hmax : 0 < randMax) :
    drawnValue randMax randMax = 1 := by
  unfold drawnValue
  have hm1 : (1 : ℚ) ≤ (randMax : ℚ) := by exact_mod_cast hmax
  have hb := roundFloat_pos (randMax : ℚ) hm1
  have hne : roundFloat (randMax : ℚ) ≠ 0 := by
    intro hc; rw [hc] at hb; norm_num at hb
  rw [div_self hne, roundFloat_one]

theorem initializeRandom_read (g : GameOfLife) (randMax : Nat) (rands : Nat → Nat)
    (density : ℚ)
    (hlen : (g.currentGrid.length : Int) = wrapInt32 (g.width * g.height))
    (i : Int) (hi0 : 0 ≤ i) (hi1 : i < wrapInt32 (g.width * g.height)) :
    readCell (initializeRandom g randMax rands density).currentGrid i =
      if drawnValue randMax (rands i.toNat) < density then 1 else 0 := by
  rw [initializeRandom_closed g randMax rands density hlen, readCell_map_intRange,
    if_pos ⟨hi0, hi1⟩]

/-- C12, as stated, fails: when `rand()` returns `RAND_MAX` the drawn value is
1, not strictly below 1, and with density 1 the cell is left dead.  With
`RAND_MAX = 2147483647` the conversion to `float` makes the draw 2147483600
give 1 as well. -/
theorem draw_of_rand_max_is_one :
    drawnValue 2147483647 2147483647 = 1 ∧
    ¬ drawnValue 2147483647 2147483647 < 1 ∧
    drawnValue 2147483647 2147483600 = 1 ∧
    readCell (initializeRandom (singleCell 0) 2147483647 (fun _ => 2147483647) 1).currentGrid
      0 = 0 := by
  have h1 : drawnValue 2147483647 2147483647 = 1 := drawnValue_self 2147483647 (by decide)
  have h2 : drawnValue 2147483647 2147483600 = 1 := by
    unfold drawnValue
    have e1 : roundFloat ((2147483600 : Nat) : ℚ) = 2147483648 := by
      have := roundFloat_big_draw
      exact_mod_cast this
    have e2 : roundFloat ((2147483647 : Nat) : ℚ) = 2147483648 := by
      have := roundFloat_int_max
      exact_mod_cast this
    rw [e1, e2, div_self (by norm_num), roundFloat_one]
  refine ⟨h1, by rw [h1]; exact lt_irrefl 1, h2, ?_⟩
  rw [initializeRandom_read (singleCell 0) 2147483647 (fun _ => 2147483647) 1 (by decide) 0
    (by decide) (by decide), h1, if_neg (lt_irrefl 1)]

/-- C12 (amended): for every density in [0,1] and every sequence of `rand()`
results in `0..RAND_MAX`, `initializeRandom` compares for each cell the drawn
value `rand() / (float)RAND_MAX`, which lies in [0,1] (at least 0 and at most
1, and equal to 1 when `rand()` returned `RAND_MAX`), with density and sets
the cell alive if and only if that value is below density; so density 0 leaves
every cell dead, and density 1 makes alive exactly the cells whose drawn value
is below 1, a cell that drew `RAND_MAX` staying dead. -/
theorem random_fill (g : GameOfLife) (randMax : Nat) (rands : Nat → Nat) (density : ℚ)
    (hmax : 0 < randMax) (_hint : randMax ≤ 2147483647)
    (hr : ∀ k : Nat, rands k ≤ randMax)
    (_hd0 : 0 ≤ density) (_hd1 : density ≤ 1) (hwf : WellFormed g)
    (hfit : g.width * g.height ≤ 2147483647)
    (i : Int) (hi0 : 0 ≤ i) (hi1 : i < g.width * g.height) :
    (0 ≤ drawnValue randMax (rands i.toNat) ∧ drawnValue randMax (rands i.toNat) ≤ 1) ∧
    (rands i.toNat = randMax → drawnValue randMax (rands i.toNat) = 1) ∧
    readCell (initializeRandom g randMax rands density).currentGrid i =
      (if drawnValue randMax (rands i.toNat) < density then 1 else 0) ∧
    (density = 0 → readCell (initializeRandom g randMax rands density).currentGrid i = 0) ∧
    (density = 1 → readCell (initializeRandom g randMax rands density).currentGrid i =
      (if drawnValue randMax (rands i.toNat) < 1 then 1 else 0)) ∧
    (density = 1 → rands i.toNat = randMax →
      readCell (initializeRandom g randMax rands density).currentGrid i = 0) := by
  have hrange := drawnValue_range randMax (rands i.toNat) hmax (hr _)
  have hlen := wellFormed_length g hwf hfit
  have hi2 : i < wrapInt32 (g.width * g.height) := by
    rw [wrapInt32_eq (g.width * g.height) (by omega) hfit]; exact hi1
  have hread := initializeRandom_read g randMax rands density hlen i hi0 hi2
  have hself : rands i.toNat = randMax → drawnValue randMax (rands i.toNat) = 1 := by
    intro e; rw [e]; exact drawnValue_self randMax hmax
  refine ⟨hrange, hself, hread, ?_, ?_, ?_⟩
  · intro hd
    rw [hread, hd, if_neg (not_lt.2 hrange.1)]
  · intro hd
    rw [hread, hd]
  · intro hd e
    rw [hread, hd, hself e, if_neg (lt_irrefl 1)]

/-- C12 (amended) on `rebirthGrid` with `RAND_MAX = 32767`, density 1 and the
draws `0, 4096, ..., 28672, 32767`, at cell 8, which draws `RAND_MAX`. -/
theorem random_fill_witness :
    (0 ≤ drawnValue 32767 (min ((8 : Int).toNat * 4096) 32767) ∧
      drawnValue 32767 (min ((8 : Int).toNat * 4096) 32767) ≤ 1) ∧
    (min ((8 : Int).toNat * 4096) 32767 = 32767 →
      drawnValue 32767 (min ((8 : Int).toNat * 4096) 32767) = 1) ∧
    readCell (initializeRandom rebirthGrid 32767 (fun k => min (k * 4096) 32767) 1).currentGrid
      8 = (if drawnValue 32767 (min ((8 : Int).toNat * 4096) 32767) < 1 then 1 else 0) ∧
    ((1 : ℚ) = 0 →
      readCell (initializeRandom rebirthGrid 32767 (fun k => min (k * 4096) 32767)
        1).currentGrid 8 = 0) ∧
    ((1 : ℚ) = 1 →
      readCell (initializeRandom rebirthGrid 32767 (fun k => min (k * 4096) 32767)
        1).currentGrid 8 =
        (if drawnValue 32767 (min ((8 : Int).toNat * 4096) 32767) < 1 then 1 else 0)) ∧
    ((1 : ℚ) = 1 → min ((8 : Int).toNat * 4096) 32767 = 32767 →
      readCell (initializeRandom rebirthGrid 32767 (fun k => min (k * 4096) 32767)
        1).currentGrid 8 = 0) :=
  random_fill rebirthGrid 32767 (fun k => min (k * 4096) 32767) 1 (by decide) (by decide)
    (fun k => min_le_right _ _) (by norm_num) (le_refl 1) (by decide) (by decide) 8
    (by decide) (by decide)

/-! ## Double buffering -/

theorem store_fields (m : GameMemory) (p : BufferId) (i v : Int) :
    (m.store p i v).width = m.width ∧ (m.store p i v).height = m.height ∧
    (m.store p i v).currentGrid = m.currentGrid ∧ (m.store p i v).nextGrid = m.nextGrid ∧
    (m.store p i v).timeStep = m.timeStep := by
  cases p <;> exact ⟨rfl, rfl, rfl, rfl, rfl⟩

theorem load_store_self (m : GameMemory) (p : BufferId) (i v : Int) :
    (m.store p i v).load p = writeCell (m.load p) i v := by
  cases p <;> rfl

theorem load_store_ne (m : GameMemory) (p q : BufferId) (i v : Int) (hne : q ≠ p) :
    (m.store p i v).load q = m.load q := by
  cases p <;> cases q <;> first | rfl | exact absurd rfl hne

theorem updateCellMem_eq (m : GameMemory) (y x : Int) :
    updateCellMem m y x = m.store m.nextGrid (y * m.width + x)
      (nextValue (m.load m.currentGrid) m.width m.height y x) := by
  unfold updateCellMem nextValue
  by_cases hc : countNeighbors (m.load m.currentGrid) m.width m.height x y ≥ 4
  · simp only [if_pos hc]
  · simp only [if_neg hc]

/-- What a run of the loop body along `order` leaves in the memory when the
two pointers name different arrays. -/
theorem evalCellsMem_spec (m : GameMemory) (order : List (Int × Int))
    (hne : m.currentGrid ≠ m.nextGrid) :
    (evalCellsMem m order).width = m.width ∧ (evalCellsMem m order).height = m.height ∧
    (evalCellsMem m order).currentGrid = m.currentGrid ∧
    (evalCellsMem m order).nextGrid = m.nextGrid ∧
    (evalCellsMem m order).timeStep = m.timeStep ∧
    (evalCellsMem m order).load m.currentGrid = m.load m.currentGrid ∧
    (evalCellsMem m order).load m.nextGrid =
      evalCells m.width m.height (m.load m.currentGrid) order (m.load m.nextGrid) := by
  unfold evalCellsMem evalCells
  induction order generalizing m with
  | nil => exact ⟨rfl, rfl, rfl, rfl, rfl, rfl, rfl⟩
  | cons c cs ih =>
    have hf := store_fields m m.nextGrid (c.1 * m.width + c.2)
      (nextValue (m.load m.currentGrid) m.width m.height c.1 c.2)
    have hcur := load_store_ne m m.nextGrid m.currentGrid (c.1 * m.width + c.2)
      (nextValue (m.load m.currentGrid) m.width m.height c.1 c.2) hne
    have hnxt := load_store_self m m.nextGrid (c.1 * m.width + c.2)
      (nextValue (m.load m.currentGrid) m.width m.height c.1 c.2)
    rw [← updateCellMem_eq] at hf hcur hnxt
    have hne2 : (updateCellMem m c.1 c.2).currentGrid ≠ (updateCellMem m c.1 c.2).nextGrid := by
      rw [hf.2.2.1, hf.2.2.2.1]; exact hne
    have h := ih (updateCellMem m c.1 c.2) hne2
    rw [hf.1, hf.2.1, hf.2.2.1, hf.2.2.2.1, hf.2.2.2.2, hcur, hnxt] at h
    rw [List.foldl_cons, List.foldl_cons, updateCell_eq]
    exact h

theorem computeNextMem_eq_evalCellsMem (m : GameMemory) :
    computeNextMem m = evalCellsMem m (cellOrder m.width m.height) := by
  unfold computeNextMem evalCellsMem cellOrder List.flatMap
  rw [List.foldl_flatten, List.foldl_map]
  congr 1
  funext s y
  rw [List.foldl_map]

theorem generationMem_view (m : GameMemory) (hne : m.currentGrid ≠ m.nextGrid) :
    (generationMem m).view = generation m.view ∧
    (generationMem m).currentGrid = m.nextGrid ∧
    (generationMem m).nextGrid = m.currentGrid ∧
    (generationMem m).load m.currentGrid = m.load m.currentGrid := by
  have hs := evalCellsMem_spec m (cellOrder m.width m.height) hne
  rw [← computeNextMem_eq_evalCellsMem, ← computeNext_eq_evalCells] at hs
  have hcur : (generationMem m).currentGrid = m.nextGrid := hs.2.2.2.1
  have hnxt : (generationMem m).nextGrid = m.currentGrid := hs.2.2.1
  have hload : ∀ p : BufferId, (generationMem m).load p = (computeNextMem m).load p := by
    intro p; cases p <;> rfl
  refine ⟨?_, hcur, hnxt, by rw [hload]; exact hs.2.2.2.2.2.1⟩
  unfold GameMemory.view generation
  rw [hcur, hnxt, hload, hload, hs.2.2.2.2.2.1, hs.2.2.2.2.2.2]
  show GameOfLife.mk (computeNextMem m).width (computeNextMem m).height _ _
    (wrapInt32 ((computeNextMem m).timeStep + 1)) = _
  rw [hs.1, hs.2.1, hs.2.2.2.2.1]

/-- C13: with the two pointers naming different arrays, the array that is
current is not written at any moment of the generation (after any number of
cell evaluations it holds its old contents); after `step(1)` it still holds
exactly its pre-call contents and is named by `nextGrid`, while the array that
was next is named by `currentGrid`; the grid seen through the pointers is the
one the list model computes. -/
theorem current_buffer_frozen (m : GameMemory) (hne : m.currentGrid ≠ m.nextGrid) :
    (∀ k : Nat,
      (evalCellsMem m ((cellOrder m.width m.height).take k)).load m.currentGrid =
        m.load m.currentGrid) ∧
    (stepMem m 1).load m.currentGrid = m.load m.currentGrid ∧
    (stepMem m 1).nextGrid = m.currentGrid ∧
    (stepMem m 1).currentGrid = m.nextGrid ∧
    (stepMem m 1).currentGrid ≠ (stepMem m 1).nextGrid ∧
    (stepMem m 1).view = step m.view 1 := by
  have hg := generationMem_view m hne
  have e : stepMem m 1 = generationMem m := rfl
  rw [e, step_one]
  refine ⟨fun k => (evalCellsMem_spec m _ hne).2.2.2.2.2.1, hg.2.2.2, hg.2.2.1, hg.2.1, ?_,
    hg.1⟩
  rw [hg.2.1, hg.2.2.1]
  exact fun hc => hne hc.symm

set_option maxRecDepth 8000 in
/-- C13 on `rebirthMemory`. -/
theorem current_buffer_frozen_witness :
    (stepMem rebirthMemory 1).first = [1, 1, 1, 1, 0, 0, 0, 0, 0] ∧
    (stepMem rebirthMemory 1).second = [0, 0, 0, 0, 1, 1, 1, 1, 1] ∧
    ((∀ k : Nat,
      (evalCellsMem rebirthMemory
        ((cellOrder rebirthMemory.width rebirthMemory.height).take k)).load
          rebirthMemory.currentGrid = rebirthMemory.load rebirthMemory.currentGrid) ∧
    (stepMem rebirthMemory 1).load rebirthMemory.currentGrid =
      rebirthMemory.load rebirthMemory.currentGrid ∧
    (stepMem rebirthMemory 1).nextGrid = rebirthMemory.currentGrid ∧
    (stepMem rebirthMemory 1).currentGrid = rebirthMemory.nextGrid ∧
    (stepMem rebirthMemory 1).currentGrid ≠ (stepMem rebirthMemory 1).nextGrid ∧
    (stepMem rebirthMemory 1).view = step rebirthMemory.view 1) :=
  ⟨by decide, by decide, current_buffer_frozen rebirthMemory (by decide)⟩

end GameOfLifeOmp
